import Mathlib

/-!
# Query channel of the temporal graph sampler

A shallow embedding of `temporal-graph/temporal_sage/query_graph.cpp`.

* The `std::stringstream ss` of a query builder is a `String` passed from block to block;
  `ss << x` is `ss ++ x`, and an integer is written in decimal (`toString`), with a leading
  `-` when it is negative, as `operator<<` does for `std::int64_t` and `size_t`.
* `std::int64_t` and `std::int8_t` values are integers: the builders only compare and print
  them, so no arithmetic can wrap.
* A pointer with its element count (`start_nodes`, `numel_nodes`) is a list.
* `TORCH_CHECK` raises an error that leaves the function: functions that contain one return
  an `Except`.
-/

namespace QueryGraph

/-! ## Data model -/

/-- One sampling layer, `struct LayerParam` (lines 19-24). -/
structure LayerParam where
  edge_type : String
  limit : Int
  time_range : Int × Int
  direction : Int

/-! ## `get_nebula_query` (lines 150-211) -/

/-- The loop of lines 166-169 writing the start vertices; `i` is its counter and the list
holds `start_nodes[i], ..., start_nodes[numel_nodes - 1]`. -/
def putStartNodes (ss : String) (i : Nat) : List Int → String
  | [] => ss
  | u :: rest => putStartNodes ((if i ≠ 0 then ss ++ "," else ss) ++ toString u) (i + 1) rest

/-- Lines 162-171: name of the intermediate result, traversal source and edge type. -/
def putSource (ss : String) (start_nodes : List Int) (k : Nat) (p : LayerParam) : String :=
  if k ≠ 0 then
    ss ++ "$v" ++ toString k ++ " = GO FROM $v" ++ toString (k - 1) ++ ".dst OVER " ++ p.edge_type
  else
    putStartNodes (ss ++ "$v" ++ toString k ++ " = GO FROM ") 0 start_nodes
      ++ " OVER " ++ p.edge_type

/-- Lines 173-183: the `switch` on `p.direction`. -/
def putDirection (ss : String) (direction : Int) : String :=
  if direction = 1 then ss ++ " REVERSELY"
  else if direction = 2 then ss ++ " BIDIRECT"
  else ss

/-- Lines 185-194: the time filter; `s` and `t` are the two ends of `p.time_range`. -/
def putTimeFilter (ss : String) (time_range : Int × Int) : String :=
  let s := time_range.1
  let t := time_range.2
  if s < 0 ∧ t ≥ 0 then
    ss ++ " WHERE properties(edge).time_stamp <= " ++ toString t
  else if s ≥ 0 ∧ t < 0 then
    ss ++ " WHERE properties(edge).time_stamp >= " ++ toString s
  else if s ≥ 0 ∧ t ≥ 0 then
    ss ++ " WHERE properties(edge).time_stamp >= " ++ toString s
       ++ " AND properties(edge).time_stamp <= " ++ toString t
  else ss

/-- Line 196: the projection of a layer statement. -/
def yieldDistinct : String :=
  " YIELD DISTINCT id($^) as src, id($$) as dst, properties(edge).time_stamp as `timestamp`"

/-- Lines 198-200: the sampling cap. -/
def putLimit (ss : String) (limit : Int) : String :=
  if limit ≥ 0 then ss ++ " SAMPLE [" ++ toString limit ++ "]" else ss

/-- Lines 160-201: one pass through the body of the first loop, for `p = params[k]`. -/
def layerBody (start_nodes : List Int) (ss : String) (k : Nat) (p : LayerParam) : String :=
  let ss := putSource ss start_nodes k p
  let ss := putDirection ss p.direction
  let ss := putTimeFilter ss p.time_range
  let ss := ss ++ yieldDistinct
  let ss := putLimit ss p.limit
  ss ++ "; "

/-- Lines 159-202: the first loop; `k` is its counter and the list holds
`params[k], ..., params[params.size() - 1]`. -/
def layerLoop (start_nodes : List Int) (ss : String) (k : Nat) : List LayerParam → String
  | [] => ss
  | p :: ps => layerLoop start_nodes (layerBody start_nodes ss k p) (k + 1) ps

/-- Lines 205-207: one pass through the body of the second loop. -/
def unionBody (ss : String) (k : Nat) : String :=
  let ss := if k ≠ 0 then ss ++ " UNION YIELD" else ss ++ "YIELD"
  ss ++ " $v" ++ toString k ++ ".src as src, $v" ++ toString k ++ ".dst as dst, "
     ++ toString k ++ " as DIST, $v" ++ toString k ++ ".`timestamp` as `timestamp`"

/-- Lines 204-208: the second loop; `k` is its counter and `todo` the number of passes
left, `params.size() - k`. -/
def unionLoop (ss : String) (k : Nat) : Nat → String
  | 0 => ss
  | todo + 1 => unionLoop (unionBody ss k) (k + 1) todo

/-- Lines 150-211, `QueryGraphChannel::get_nebula_query`. -/
def get_nebula_query (space_name : String) (start_nodes : List Int)
    (params : List LayerParam) : String :=
  let ss := "" ++ "USE " ++ space_name ++ "; "
  let ss := layerLoop start_nodes ss 0 params
  let ss := unionLoop ss 0 params.length
  ss ++ "; "

/-- The text one pass of the first loop appends for `p = params[k]`: layer statement `k`. -/
def layerStmt (start_nodes : List Int) (k : Nat) (p : LayerParam) : String :=
  layerBody start_nodes "" k p

/-- The text lines 204-209 append after the layer statements of `n` layers: the final
statement. -/
def finalStmt (n : Nat) : String :=
  unionLoop "" 0 n ++ "; "

/-! ## Result rows and the edge array of `sample_subgraph` (lines 53-75) -/

/-- Modelled from the spec: the cell type of the store client, `nebula::Value`, whose
declaration is not in this repository: a value tagged at run time as integer, floating
point or string (§9), or holding nothing. The integer is an `int64`; the floating-point
payload is kept as the bit pattern of the `double`. -/
inductive Value where
  | null
  | int (i : Int)
  | float (bits : Nat)
  | string (s : String)

/-- The type test `isInt()` of a cell. -/
def Value.isInt : Value → Bool
  | .int _ => true
  | _ => false

/-- The extraction `getInt()` of a cell; it has a result on a cell tagged as integer only. -/
def Value.getInt : Value → Option Int
  | .int i => some i
  | _ => none

/-- Modelled from the spec: a row of the store's tabular response, `nebula::Row`, whose
declaration is not in this repository: the vector `values` of its cells. -/
structure Row where
  values : List Value

/-- The ways a call can leave without a result: a `TORCH_CHECK` that fails, with its
message, and a step the source leaves undefined (a cell index past the end of a row,
`getInt()` on a cell that is not an integer). -/
inductive Err where
  | check (msg : String)
  | undefined

/-- A two-dimensional `int64` tensor, `torch::zeros({dim0, dim1})` of type `Long`: the shape
and the row-major buffer behind `data_ptr`. -/
structure LongTensor2 where
  dim0 : Nat
  dim1 : Nat
  data : List Int

/-- The entry `[i, j]` of a tensor. -/
def LongTensor2.entry (t : LongTensor2) (i j : Nat) : Option Int :=
  if i < t.dim0 ∧ j < t.dim1 then t.data[i * t.dim1 + j]? else none

/-- Lines 60-72: one pass through the body of the loop over the rows, for row number `k`
of `m`; `ptr` is the buffer of the array. The four cells are read first, then the three
checks run, then the four entries of column `k` are written. -/
def edgeRowBody (m : Nat) (ptr : List Int) (k : Nat) (row : Row) : Except Err (List Int) :=
  match row.values[0]?, row.values[1]?, row.values[2]?, row.values[3]? with
  | some src, some dst, some dist, some timestamp =>
    if ¬ src.isInt then .error (.check "internel error: 1")
    else if ¬ dst.isInt then .error (.check "internel error: 1")
    else if ¬ timestamp.isInt then .error (.check "internel error: 1")
    else
      match src.getInt, dst.getInt, dist.getInt, timestamp.getInt with
      | some a, some b, some c, some d =>
        .ok ((((ptr.set (0 * m + k) a).set (1 * m + k) b).set (2 * m + k) c).set (3 * m + k) d)
      | _, _, _, _ => .error .undefined
  | _, _, _, _ => .error .undefined

/-- Lines 57-73: the loop over the rows; `k` is its counter and the list holds the rows not
yet visited. -/
def edgeLoop (m : Nat) (ptr : List Int) (k : Nat) : List Row → Except Err (List Int)
  | [] => .ok ptr
  | row :: rest =>
    match edgeRowBody m ptr k row with
    | .error e => .error e
    | .ok ptr => edgeLoop m ptr (k + 1) rest

/-- Lines 53-75 of `sample_subgraph`: the array of shape `[4, m]` is allocated with zeros,
filled by the loop over the `m` rows of `data`, and returned. -/
def materialize (data : List Row) : Except Err LongTensor2 :=
  let m := data.length
  let edge_index := List.replicate (4 * m) (0 : Int)
  match edgeLoop m edge_index 0 data with
  | .error e => .error e
  | .ok ptr => .ok ⟨4, m, ptr⟩

/-- Lines 36-76, `QueryGraphChannel::sample_subgraph`, over the store call
`nebula_execute`, which gives the rows of the response or fails. The printing of the
statement to standard output under `verbose` (lines 46-48) is left out. -/
def sample_subgraph (nebula_execute : String → Except Err (List Row)) (space_name : String)
    (start_nodes : List Int) (params : List LayerParam) : Except Err LongTensor2 :=
  let stmt := get_nebula_query space_name start_nodes params
  match nebula_execute stmt with
  | .error e => .error e
  | .ok data => materialize data

/-- The cell `i` of a row is present and tagged as integer. -/
def Row.isIntAt (r : Row) (i : Nat) : Bool :=
  match r.values[i]? with
  | some v => v.isInt
  | none => false

/-- The src, dst and timestamp cells of a row (cells 0, 1 and 3) are tagged as integer. -/
def Row.keysAreInt (r : Row) : Bool :=
  r.isIntAt 0 && r.isIntAt 1 && r.isIntAt 3

/-! ## The query text as the specification words it -/

/-- Spec, traversal source: the decimal start vertices joined by "," when `k = 0`, and the
destination set of the previous layer's result, `$v(k-1).dst`, when `k ≥ 1`. -/
def spec_source (start_vertices : List Int) (k : Nat) : String :=
  match k with
  | 0 => String.intercalate "," (start_vertices.map toString)
  | j + 1 => "$v" ++ toString j ++ ".dst"

/-- Spec, layer statement `k`; the three optional clauses are the ones the code writes. -/
def spec_layerStmt (start_vertices : List Int) (k : Nat) (p : LayerParam) : String :=
  "$v" ++ toString k ++ " = GO FROM " ++ spec_source start_vertices k ++ " OVER " ++ p.edge_type
    ++ putDirection "" p.direction
    ++ putTimeFilter "" p.time_range
    ++ " YIELD DISTINCT id($^) as src, id($$) as dst, properties(edge).time_stamp as `timestamp`"
    ++ putLimit "" p.limit
    ++ "; "

/-- Spec, whole query: the namespace clause, the layer statements in index order, and the
final statement last. -/
def spec_query (space : String) (start_vertices : List Int) (layers : List LayerParam) : String :=
  "USE " ++ space ++ "; "
    ++ String.join (layers.enum.map fun kp => spec_layerStmt start_vertices kp.1 kp.2)
    ++ finalStmt layers.length

/-- Spec, branch `k` of the final statement: the keyword, `YIELD` for the first branch and
` UNION YIELD` for the later ones, then the projection of `$vk` with `k` as `DIST`. -/
def spec_branch (k : Nat) : String :=
  (if k = 0 then "YIELD" else " UNION YIELD")
    ++ " $v" ++ toString k ++ ".src as src, $v" ++ toString k ++ ".dst as dst, "
    ++ toString k ++ " as DIST, $v" ++ toString k ++ ".`timestamp` as `timestamp`"

/-- Spec, the ids of a window with the later duplicates removed: the first occurrence of
an id stays where it is and every later occurrence is dropped. -/
def spec_dedup : List Int → List Int
  | [] => []
  | u :: rest => u :: (spec_dedup rest).filter (fun v => v ≠ u)

/-- Spec, the attribute part of a bulk fetch: for each attribute name in order,
", properties(vertex)." + attr + " as `" + attr + "`". -/
def spec_attrList (attrs : List String) : String :=
  String.join (attrs.map fun a => ", properties(vertex)." ++ a ++ " as `" ++ a ++ "`")

/-- Spec, the bulk-fetch query of a window. -/
def spec_gather (space : String) (window : List Int) (attrs : List String) : String :=
  "USE " ++ space ++ "; FETCH PROP ON * "
    ++ String.intercalate "," ((spec_dedup window).map toString)
    ++ " YIELD id(vertex) as nid" ++ spec_attrList attrs ++ "; "

/-! ## Reading a query text -/

/-- The text `part` occurs in `text` as a contiguous run of characters. -/
def containsText (text part : String) : Prop :=
  part.data <:+: text.data

/-! ## `get_nebula_gather` (lines 213-240) -/

/-- The loop of lines 224-233 writing the vertex ids of a window; `vis` holds the ids
inserted into the set so far, `i` is the loop counter and the list holds
`start_nodes[i], ..., start_nodes[numel_nodes - 1]`. An id found in `vis` is skipped. -/
def putGatherNodes (ss : String) (vis : List Int) (i : Nat) : List Int → String
  | [] => ss
  | u :: rest =>
    if u ∈ vis then putGatherNodes ss vis (i + 1) rest
    else putGatherNodes ((if i ≠ 0 then ss ++ "," else ss) ++ toString u) (u :: vis) (i + 1) rest

/-- The loop of lines 235-237 writing the requested attributes. -/
def putAttrs (ss : String) : List String → String
  | [] => ss
  | a :: rest => putAttrs (ss ++ ", properties(vertex)." ++ a ++ " as `" ++ a ++ "`") rest

/-- Lines 213-240, `QueryGraphChannel::get_nebula_gather`. -/
def get_nebula_gather (space_name : String) (start_nodes : List Int)
    (attrs : List String) : String :=
  let ss := "" ++ "USE " ++ space_name ++ "; "
  let ss := ss ++ "FETCH PROP ON * "
  let ss := putGatherNodes ss [] 0 start_nodes
  let ss := ss ++ " YIELD id(vertex) as nid"
  let ss := putAttrs ss attrs
  ss ++ "; "

/-! ## The channel, its sessions and `gather_attributes` (lines 26-34, 78-149) -/

/-- Modelled from the spec: the pool of connections to the store,
`nebula::ConnectionPool`, whose declaration is not in this repository; it is kept as the
addresses and the size it was initialised with. -/
structure ConnectionPool where
  addresses : List String
  maxConnectionPoolSize : Nat

/-- The members of `class QueryGraphChannel` (lines 27-28). -/
structure QueryGraphChannel where
  pool : ConnectionPool
  verbose : Bool

/-- Lines 30-34, the constructor: the pool is initialised and `verbose` starts as false. -/
def QueryGraphChannel.init (addresses : List String) (pool_size : Nat) : QueryGraphChannel :=
  ⟨⟨addresses, pool_size⟩, false⟩

/-- Lines 132-134, `QueryGraphChannel::debug`. -/
def QueryGraphChannel.debug (c : QueryGraphChannel) : QueryGraphChannel :=
  ⟨c.pool, true⟩

/-- Modelled from the spec: the answer of the store to a statement,
`nebula::ExecutionResponse`, whose declaration is not in this repository: whether the error
code is `SUCCEEDED`, the message of the store, and the rows. -/
structure ExecutionResponse where
  succeeded : Bool
  errorMsg : String
  data : List Row

/-- A call made on the pool or on a session taken from it, and `destroy`, the end of the
lifetime of the local variable `session` (line 138), which every way out of
`nebula_execute` brings about, a throwing `TORCH_CHECK` included. -/
inductive SessionEvent where
  | getSession
  | execute (stmt : String)
  | release
  | destroy

/-- Lines 137-149, `QueryGraphChannel::nebula_execute`: the calls it makes, in order, and
what it returns. `session_valid` is the answer of `session.valid()` and `store` the answer
of the store to a statement. Each way out ends the lifetime of `session`. -/
def nebula_execute (session_valid : Bool) (store : String → ExecutionResponse)
    (stmt : String) : List SessionEvent × Except Err ExecutionResponse :=
  let calls := [SessionEvent.getSession]
  if ¬ session_valid then
    (calls ++ [SessionEvent.destroy], .error (.check "invalid sessions inside query_graph"))
  else
    let result := store stmt
    let calls := calls ++ [SessionEvent.execute stmt]
    if ¬ result.succeeded then (calls ++ [SessionEvent.destroy], .error (.check result.errorMsg))
    else
      let calls := calls ++ [SessionEvent.release]
      (calls ++ [SessionEvent.destroy], .ok result)

/-- Whether the session has been released once the calls `calls` are made: by a call of
`release`, or by the end of the session's lifetime when the destructor of the client's
session type releases. `release_on_destroy` is that property of `nebula::Session`, whose
declaration is not in this repository. -/
def sessionReleased (release_on_destroy : Bool) (calls : List SessionEvent) : Bool :=
  calls.any fun e =>
    match e with
    | .release => true
    | .destroy => release_on_destroy
    | _ => false

/-- Lines 36-76 with the printing of lines 46-48: the lines written to `std::cout` and the
result of `sample_subgraph`. -/
def QueryGraphChannel.sample_subgraph (c : QueryGraphChannel)
    (nebula_execute : String → Except Err (List Row)) (space_name : String)
    (start_nodes : List Int) (params : List LayerParam) :
    List String × Except Err LongTensor2 :=
  let stmt := get_nebula_query space_name start_nodes params
  let cout := if c.verbose then [stmt] else []
  match nebula_execute stmt with
  | .error e => (cout, .error e)
  | .ok data => (cout, materialize data)

/-- The type test `isNumeric()` of a cell: tagged as integer or as floating point. -/
def Value.isNumeric : Value → Bool
  | .int _ => true
  | .float _ => true
  | _ => false

/-- An entry of a `Float` tensor, kept symbolic: the zero of `torch::zeros`, or the value
`x.toFloat().getFloat()` narrowed to `float` for the numeric cell `x` it was cast from. -/
inductive F32 where
  | zero
  | ofValue (x : Value)

/-- A two-dimensional `Float` tensor: the shape and the row-major buffer. -/
structure FloatTensor2 where
  dim0 : Nat
  dim1 : Nat
  data : List F32

/-- The entry `[i, j]` of a `Float` tensor. -/
def FloatTensor2.entry (t : FloatTensor2) (i j : Nat) : Option F32 :=
  if i < t.dim0 ∧ j < t.dim1 then t.data[i * t.dim1 + j]? else none

/-- The pair `{node_index, node_attrs}` returned by `gather_attributes`; `node_index` is a
one-dimensional `Long` tensor, kept as the list of its entries. -/
structure AttributeArrays where
  node_index : List Int
  node_attrs : FloatTensor2

/-- The variables of `gather_attributes` that change in its loops: the row counter `k` and
the buffers of the two arrays. -/
structure GatherState where
  k : Nat
  node_index : List Int
  node_attrs : List F32

/-- Lines 113-122: the loop over the attribute cells of a row; `i` is its counter and
`todo` the number of passes left, `f - i`. A cell index past the end of the row and a write
past the end of the buffer are undefined. -/
def gatherAttrLoop (f k : Nat) (row : Row) (attrs_ptr : List F32) (i : Nat) :
    Nat → Except Err (List F32)
  | 0 => .ok attrs_ptr
  | todo + 1 =>
    match row.values[i + 1]? with
    | none => .error .undefined
    | some x =>
      if ¬ x.isNumeric then .error (.check "internel error: 2")
      else if k * f + i < attrs_ptr.length then
        gatherAttrLoop f k row (attrs_ptr.set (k * f + i) (.ofValue x)) (i + 1) todo
      else .error .undefined

/-- Lines 109-122 and the `++k` of line 107: one pass through the loop over the rows of a
response. -/
def gatherRowBody (f : Nat) (st : GatherState) (row : Row) : Except Err GatherState :=
  match row.values[0]? with
  | none => .error .undefined
  | some nid =>
    if ¬ nid.isInt then .error (.check "internel error: 1")
    else
      match nid.getInt with
      | none => .error .undefined
      | some v =>
        if st.k < st.node_index.length then
          match gatherAttrLoop f st.k row st.node_attrs 0 f with
          | .error e => .error e
          | .ok attrs_ptr => .ok ⟨st.k + 1, st.node_index.set st.k v, attrs_ptr⟩
        else .error .undefined

/-- Lines 107-123: the loop over the rows of a response. -/
def gatherRowLoop (f : Nat) (st : GatherState) : List Row → Except Err GatherState
  | [] => .ok st
  | row :: rest =>
    match gatherRowBody f st row with
    | .error e => .error e
    | .ok st => gatherRowLoop f st rest

/-- What a run of a loop of `gather_attributes` leaves behind: the lines written to
`std::cout`, the statements passed to `nebula_execute` in order, and the result. -/
structure GatherRun (α : Type) where
  cout : List String
  issued : List String
  result : Except Err α

/-- Lines 92-124: the loop over the windows; `t` is its counter and `fuel` bounds the
number of passes (the loop makes at most `n` of them, as `t` grows by 512 a pass). -/
def gatherWindowLoop (verbose : Bool) (nebula_execute : String → Except Err (List Row))
    (space_name : String) (start_nodes : List Int) (attrs : List String) (n f : Nat) :
    Nat → Nat → List String → List String → GatherState → GatherRun GatherState
  | 0, t, cout, issued, st =>
    if t < n then ⟨cout, issued, .error .undefined⟩ else ⟨cout, issued, .ok st⟩
  | fuel + 1, t, cout, issued, st =>
    if t < n then
      let _s := start_nodes.drop t
      let _n := min (n - t) 512
      let stmt := get_nebula_gather space_name (_s.take _n) attrs
      let cout := if verbose then cout ++ [stmt] else cout
      let issued := issued ++ [stmt]
      match nebula_execute stmt with
      | .error e => ⟨cout, issued, .error e⟩
      | .ok data =>
        match gatherRowLoop f st data with
        | .error e => ⟨cout, issued, .error e⟩
        | .ok st =>
          gatherWindowLoop verbose nebula_execute space_name start_nodes attrs n f
            fuel (t + 512) cout issued st
    else ⟨cout, issued, .ok st⟩

/-- Lines 78-130, `QueryGraphChannel::gather_attributes`, over the store call
`nebula_execute`, which gives the rows of the response or fails. -/
def QueryGraphChannel.gather_attributes (c : QueryGraphChannel)
    (nebula_execute : String → Except Err (List Row)) (space_name : String)
    (start_nodes : List Int) (attrs : List String) : GatherRun AttributeArrays :=
  let n := start_nodes.length
  let f := attrs.length
  let node_index := List.replicate n (0 : Int)
  let node_attrs := List.replicate (n * f) F32.zero
  let run := gatherWindowLoop c.verbose nebula_execute space_name start_nodes attrs n f
    n 0 [] [] ⟨0, node_index, node_attrs⟩
  match run.result with
  | .error e => ⟨run.cout, run.issued, .error e⟩
  | .ok st =>
    ⟨run.cout, run.issued,
      .ok ⟨st.node_index.take st.k, ⟨st.k, f, st.node_attrs.take (st.k * f)⟩⟩⟩

/-! ## Reading the rows of a bulk fetch -/

/-- The vertex id of a row: its cell 0 when that is an integer. -/
def Row.nid (r : Row) : Int :=
  match r.values with
  | .int i :: _ => i
  | _ => 0

/-- The `f` attribute cells of a row: the cells 1 to `f`. -/
def Row.attrCells (f : Nat) (r : Row) : List Value :=
  (r.values.drop 1).take f

/-- The id cell of a row is an integer and its `f` attribute cells are numeric. -/
def Row.typesOk (f : Nat) (r : Row) : Bool :=
  r.isIntAt 0 && (r.attrCells f).all Value.isNumeric

/-- The state of `gather_attributes` for an input of `n` vertices and `f` attributes once
the rows `rows` have been stored: the ids and the cast attribute cells of the rows fill the
buffers from the start and the rest is still zero. -/
def GatherState.filled (n f : Nat) (rows : List Row) : GatherState :=
  ⟨rows.length,
    rows.map Row.nid ++ List.replicate (n - rows.length) 0,
    rows.flatMap (fun r => (r.attrCells f).map F32.ofValue)
      ++ List.replicate ((n - rows.length) * f) F32.zero⟩

/-- The windows the loop of lines 92-124 visits from the offset `t` on, with `fuel` passes
at most. -/
def loopWindows (start_nodes : List Int) (n : Nat) : Nat → Nat → List (List Int)
  | 0, _ => []
  | fuel + 1, t =>
    if t < n then
      ((start_nodes.drop t).take (min (n - t) 512)) :: loopWindows start_nodes n fuel (t + 512)
    else []

/-- Spec, the windows of a start-vertex sequence of length N: ceil(N/512) of them, window
`j` being the slice from `512 * j` to `min (512 * (j + 1)) N`. -/
def spec_windows (start_vertices : List Int) : List (List Int) :=
  (List.range ((start_vertices.length + 511) / 512)).map
    fun j => (start_vertices.drop (512 * j)).take 512

/-! ## Reading the store's answers and the text of a bulk fetch -/

/-- The rows the store returns for a statement: the rows of its answer, and none when it
reports an error. -/
def returnedRows (nebula_execute : String → Except Err (List Row)) (stmt : String) :
    List Row :=
  match nebula_execute stmt with
  | .ok rows => rows
  | .error _ => []

/-- Spec, the bulk-fetch text that lists the ids `ids`, in decimal and joined by commas,
for the attributes `attrs`. -/
def spec_fetch (space : String) (ids : List Int) (attrs : List String) : String :=
  "USE " ++ space ++ "; FETCH PROP ON * "
    ++ String.intercalate "," (ids.map toString)
    ++ " YIELD id(vertex) as nid" ++ spec_attrList attrs ++ "; "

/-! ## Lemmas -/

/-! ### Each block appends to the stream -/

theorem putStartNodes_append (ss : String) (i : Nat) (l : List Int) :
    putStartNodes ss i l = ss ++ putStartNodes "" i l := by
  induction l generalizing ss i with
  | nil => simp [putStartNodes]
  | cons u rest ih =>
    simp only [putStartNodes]
    rw [ih, ih (_ ++ toString u)]
    split <;> simp [String.append_assoc]

theorem putSource_append (ss : String) (l : List Int) (k : Nat) (p : LayerParam) :
    putSource ss l k p = ss ++ putSource "" l k p := by
  unfold putSource
  split
  · simp [String.append_assoc]
  · rw [putStartNodes_append, putStartNodes_append (_ ++ " = GO FROM ")]
    simp [String.append_assoc]

theorem putDirection_append (ss : String) (d : Int) :
    putDirection ss d = ss ++ putDirection "" d := by
  unfold putDirection
  split_ifs <;> simp

theorem putTimeFilter_append (ss : String) (r : Int × Int) :
    putTimeFilter ss r = ss ++ putTimeFilter "" r := by
  unfold putTimeFilter
  simp only
  split_ifs <;> simp [String.append_assoc]

theorem putLimit_append (ss : String) (n : Int) :
    putLimit ss n = ss ++ putLimit "" n := by
  unfold putLimit
  split_ifs <;> simp [String.append_assoc]

theorem layerBody_append (l : List Int) (ss : String) (k : Nat) (p : LayerParam) :
    layerBody l ss k p = ss ++ layerStmt l k p := by
  unfold layerStmt layerBody
  simp only
  rw [putLimit_append, putTimeFilter_append, putDirection_append, putSource_append,
    putLimit_append (_ ++ yieldDistinct), putTimeFilter_append (putDirection _ _),
    putDirection_append (putSource _ _ _ _)]
  simp [String.append_assoc]

theorem unionBody_append (ss : String) (k : Nat) :
    unionBody ss k = ss ++ unionBody "" k := by
  unfold unionBody
  split_ifs <;> simp [String.append_assoc]

theorem unionLoop_append (ss : String) (k n : Nat) :
    unionLoop ss k n = ss ++ unionLoop "" k n := by
  induction n generalizing ss k with
  | zero => simp [unionLoop]
  | succ n ih =>
    simp only [unionLoop]
    rw [ih, ih (unionBody "" k), unionBody_append, String.append_assoc]

theorem foldl_append_join (acc : String) (l : List String) :
    List.foldl (fun r s => r ++ s) acc l = acc ++ String.join l := by
  induction l generalizing acc with
  | nil => simp [String.join]
  | cons a l ih =>
    simp only [String.join, List.foldl_cons]
    rw [ih, ih ("" ++ a)]
    simp [String.append_assoc]

theorem join_cons (a : String) (l : List String) :
    String.join (a :: l) = a ++ String.join l := by
  show List.foldl (fun r s => r ++ s) ("" ++ a) l = a ++ String.join l
  rw [foldl_append_join]
  simp

theorem layerLoop_eq_join (sn : List Int) (ss : String) (k : Nat) (ps : List LayerParam) :
    layerLoop sn ss k ps =
      ss ++ String.join ((ps.enumFrom k).map fun kp => layerStmt sn kp.1 kp.2) := by
  induction ps generalizing ss k with
  | nil => simp [layerLoop, String.join]
  | cons p ps ih =>
    simp only [layerLoop, List.enumFrom_cons, List.map_cons]
    rw [ih, layerBody_append, join_cons, String.append_assoc]

/-- The query text is the namespace clause, the layer statements in order and the final
statement. -/
theorem get_nebula_query_eq (space : String) (sn : List Int) (ps : List LayerParam) :
    get_nebula_query space sn ps =
      "USE " ++ space ++ "; "
        ++ String.join (ps.enum.map fun kp => layerStmt sn kp.1 kp.2)
        ++ finalStmt ps.length := by
  unfold get_nebula_query finalStmt
  simp only
  rw [unionLoop_append, layerLoop_eq_join]
  simp [String.append_assoc, List.enum]

/-! ### The traversal source -/

theorem putStartNodes_succ (ss : String) (i : Nat) (l : List Int) :
    putStartNodes ss (i + 1) l = String.intercalate.go ss "," (l.map toString) := by
  induction l generalizing ss i with
  | nil => simp [putStartNodes, String.intercalate.go]
  | cons u rest ih =>
    simp only [putStartNodes, List.map_cons, String.intercalate.go]
    rw [ih]
    simp

theorem putStartNodes_zero (l : List Int) :
    putStartNodes "" 0 l = String.intercalate "," (l.map toString) := by
  cases l with
  | nil => simp [putStartNodes, String.intercalate]
  | cons u rest =>
    simp only [putStartNodes, List.map_cons, String.intercalate]
    rw [putStartNodes_succ]
    simp

theorem putSource_eq_spec (sn : List Int) (k : Nat) (p : LayerParam) :
    putSource "" sn k p =
      "$v" ++ toString k ++ " = GO FROM " ++ spec_source sn k ++ " OVER " ++ p.edge_type := by
  cases k with
  | zero =>
    simp only [putSource, spec_source]
    rw [putStartNodes_append, putStartNodes_zero]
    simp [String.append_assoc]
  | succ j =>
    have h : (" = GO FROM $v" : String) = " = GO FROM " ++ "$v" := rfl
    simp only [putSource, spec_source, String.append_assoc, Nat.add_sub_cancel,
      Nat.succ_ne_zero, ne_eq, not_false_eq_true, if_true, String.empty_append]
    have h2 : (".dst OVER " : String) = ".dst" ++ " OVER " := rfl
    rw [h, h2, String.append_assoc, String.append_assoc]

theorem layerStmt_eq_spec (sn : List Int) (k : Nat) (p : LayerParam) :
    layerStmt sn k p = spec_layerStmt sn k p := by
  unfold layerStmt layerBody spec_layerStmt
  simp only
  rw [putLimit_append, putTimeFilter_append, putDirection_append, putSource_eq_spec]
  simp only [String.append_assoc, yieldDistinct]

/-! ### The parts of a layer statement -/

/-- A layer statement is its head, then the direction modifier, the time filter, the
projection, the cap and the terminator, in this order. -/
theorem layerStmt_parts (sn : List Int) (k : Nat) (p : LayerParam) :
    layerStmt sn k p =
      putSource "" sn k p ++ putDirection "" p.direction ++ putTimeFilter "" p.time_range
        ++ yieldDistinct ++ putLimit "" p.limit ++ "; " := by
  unfold layerStmt layerBody
  simp only
  rw [putLimit_append, putTimeFilter_append, putDirection_append]

theorem putTimeFilter_none (lo hi : Int) (hlo : lo < 0) (hhi : hi < 0) :
    putTimeFilter "" (lo, hi) = "" := by
  unfold putTimeFilter
  simp only
  rw [if_neg (by omega), if_neg (by omega), if_neg (by omega)]

theorem putTimeFilter_upper (lo hi : Int) (hlo : lo < 0) (hhi : 0 ≤ hi) :
    putTimeFilter "" (lo, hi) = " WHERE properties(edge).time_stamp <= " ++ toString hi := by
  unfold putTimeFilter
  simp only
  rw [if_pos ⟨hlo, hhi⟩, String.empty_append]

theorem putTimeFilter_lower (lo hi : Int) (hlo : 0 ≤ lo) (hhi : hi < 0) :
    putTimeFilter "" (lo, hi) = " WHERE properties(edge).time_stamp >= " ++ toString lo := by
  unfold putTimeFilter
  simp only
  rw [if_neg (by omega), if_pos ⟨hlo, hhi⟩, String.empty_append]

theorem putTimeFilter_both (lo hi : Int) (hlo : 0 ≤ lo) (hhi : 0 ≤ hi) :
    putTimeFilter "" (lo, hi) =
      " WHERE properties(edge).time_stamp >= " ++ toString lo
        ++ " AND properties(edge).time_stamp <= " ++ toString hi := by
  unfold putTimeFilter
  simp only
  rw [if_neg (by omega), if_neg (by omega), if_pos ⟨hlo, hhi⟩, String.empty_append]

/-! ### Characters of a decimal number -/

theorem digitChar_not_angle :
    ∀ m < 10, Nat.digitChar m ≠ '<' ∧ Nat.digitChar m ≠ '>' := by
  decide

theorem toDigitsCore_chars (fuel n : Nat) (ds : List Char) (c : Char)
    (h : c ∈ Nat.toDigitsCore 10 fuel n ds) : c ∈ ds ∨ ∃ m < 10, c = Nat.digitChar m := by
  induction fuel generalizing n ds with
  | zero => exact Or.inl (by simpa [Nat.toDigitsCore] using h)
  | succ fuel ih =>
    simp only [Nat.toDigitsCore] at h
    split at h
    · rcases List.mem_cons.mp h with h | h
      · exact Or.inr ⟨_, Nat.mod_lt _ (by decide), h⟩
      · exact Or.inl h
    · rcases ih _ _ h with h | h
      · rcases List.mem_cons.mp h with h | h
        · exact Or.inr ⟨_, Nat.mod_lt _ (by decide), h⟩
        · exact Or.inl h
      · exact Or.inr h

theorem natRepr_chars (n : Nat) (c : Char) (h : c ∈ (toString n).data) :
    c ≠ '<' ∧ c ≠ '>' := by
  have h2 : c ∈ Nat.toDigitsCore 10 (n + 1) n [] := h
  rcases toDigitsCore_chars _ _ _ _ h2 with h3 | ⟨m, hm, rfl⟩
  · simp at h3
  · exact digitChar_not_angle m hm

/-- A decimal integer holds no `<` and no `>`. -/
theorem intRepr_chars (i : Int) (c : Char) (h : c ∈ (toString i).data) :
    c ≠ '<' ∧ c ≠ '>' := by
  cases i with
  | ofNat n => exact natRepr_chars n c h
  | negSucc n =>
    have h2 : c ∈ ("-" ++ toString (n + 1)).data := h
    rw [String.data_append] at h2
    rcases List.mem_append.mp h2 with h3 | h3
    · have : c = '-' := by simpa using h3
      subst this
      exact ⟨by decide, by decide⟩
    · exact natRepr_chars _ c h3

/-- A text that holds `c` does not occur in a text that does not. -/
theorem not_containsText_of_char (text part : String) (c : Char)
    (hp : c ∈ part.data) (ht : c ∉ text.data) : ¬ containsText text part :=
  fun h => ht (h.subset hp)

theorem containsText_mid (a part b : String) : containsText (a ++ part ++ b) part := by
  unfold containsText
  rw [String.data_append, String.data_append]
  exact List.infix_append _ _ _

theorem containsText_end (a part : String) : containsText (a ++ part) part := by
  unfold containsText
  rw [String.data_append]
  exact (List.suffix_append _ _).isInfix

theorem lowerCond_has_gt (lo : Int) :
    '>' ∈ ("properties(edge).time_stamp >= " ++ toString lo).data := by
  rw [String.data_append]
  exact List.mem_append_left _ (by decide)

theorem upperCond_has_lt (hi : Int) :
    '<' ∈ ("properties(edge).time_stamp <= " ++ toString hi).data := by
  rw [String.data_append]
  exact List.mem_append_left _ (by decide)

theorem upperClause_no_gt (hi : Int) :
    '>' ∉ (" WHERE properties(edge).time_stamp <= " ++ toString hi).data := by
  rw [String.data_append]
  intro h
  rcases List.mem_append.mp h with h | h
  · exact absurd h (by decide)
  · exact (intRepr_chars hi _ h).2 rfl

theorem lowerClause_no_lt (lo : Int) :
    '<' ∉ (" WHERE properties(edge).time_stamp >= " ++ toString lo).data := by
  rw [String.data_append]
  intro h
  rcases List.mem_append.mp h with h | h
  · exact absurd h (by decide)
  · exact (intRepr_chars lo _ h).1 rfl

/-! ### Direction, cap and final statement -/

theorem putDirection_other (d : Int) (h1 : d ≠ 1) (h2 : d ≠ 2) : putDirection "" d = "" := by
  unfold putDirection
  rw [if_neg h1, if_neg h2]

theorem layerLoop_congr (sn : List Int) (p q : LayerParam)
    (h : ∀ k, layerStmt sn k p = layerStmt sn k q) (before after : List LayerParam)
    (ss : String) (k : Nat) :
    layerLoop sn ss k (before ++ p :: after) = layerLoop sn ss k (before ++ q :: after) := by
  induction before generalizing ss k with
  | nil =>
    simp only [List.nil_append, layerLoop]
    rw [layerBody_append, layerBody_append sn ss k q, h]
  | cons b before ih =>
    simp only [List.cons_append, layerLoop]
    exact ih _ _

theorem unionBody_eq_spec (k : Nat) : unionBody "" k = spec_branch k := by
  unfold unionBody spec_branch
  by_cases hk : k = 0 <;> simp [hk, String.append_assoc]

theorem unionLoop_eq_join (k n : Nat) :
    unionLoop "" k n = String.join ((List.range' k n).map spec_branch) := by
  induction n generalizing k with
  | zero => simp [unionLoop, String.join]
  | succ n ih =>
    simp only [unionLoop, List.range'_succ, List.map_cons]
    rw [unionLoop_append, ih, join_cons, unionBody_eq_spec]

theorem putLimit_cap (n : Int) (h : 0 ≤ n) :
    putLimit "" n = " SAMPLE [" ++ toString n ++ "]" := by
  unfold putLimit
  rw [if_pos h, String.empty_append]

theorem putLimit_none (n : Int) (h : n < 0) : putLimit "" n = "" := by
  unfold putLimit
  rw [if_neg (by omega)]

theorem cap_length (n : Int) : 0 < (" SAMPLE [" ++ toString n ++ "]").length := by
  rw [String.length_append, String.length_append]
  have : (" SAMPLE [" : String).length = 9 := rfl
  omega

theorem finalStmt_eq_join (n : Nat) :
    finalStmt n = String.join ((List.range n).map spec_branch) ++ "; " := by
  unfold finalStmt
  rw [unionLoop_eq_join, List.range_eq_range']

/-! ### The loop over the result rows -/

/-- The buffer after the four writes of one pass of the loop over the rows. -/
theorem edgeRowBody_int (m : Nat) (ptr : List Int) (k : Nat) (row : Row) (a b c d : Int)
    (rest : List Value)
    (h : row.values = Value.int a :: Value.int b :: Value.int c :: Value.int d :: rest) :
    edgeRowBody m ptr k row =
      .ok ((((ptr.set (0 * m + k) a).set (1 * m + k) b).set (2 * m + k) c).set (3 * m + k) d) := by
  simp [edgeRowBody, h, Value.isInt, Value.getInt]

theorem column_written (m : Nat) (ptr : List Int) (k : Nat) (a b c d : Int)
    (hlen : ptr.length = 4 * m) (hk : k < m) :
    ((((ptr.set (0 * m + k) a).set (1 * m + k) b).set (2 * m + k) c).set (3 * m + k) d)[0 * m + k]?
        = some a ∧
    ((((ptr.set (0 * m + k) a).set (1 * m + k) b).set (2 * m + k) c).set (3 * m + k) d)[1 * m + k]?
        = some b ∧
    ((((ptr.set (0 * m + k) a).set (1 * m + k) b).set (2 * m + k) c).set (3 * m + k) d)[2 * m + k]?
        = some c ∧
    ((((ptr.set (0 * m + k) a).set (1 * m + k) b).set (2 * m + k) c).set (3 * m + k) d)[3 * m + k]?
        = some d := by
  simp only [List.getElem?_set, List.length_set, hlen]
  refine ⟨?_, ?_, ?_, ?_⟩
  all_goals (split_ifs <;> first | rfl | (exfalso; omega))

theorem column_kept (m : Nat) (ptr : List Int) (k q : Nat) (a b c d : Int)
    (hk : k < m) (hq : q < m) (hne : q ≠ k) (i : Nat) (hi : i = 0 ∨ i = 1 ∨ i = 2 ∨ i = 3) :
    ((((ptr.set (0 * m + k) a).set (1 * m + k) b).set (2 * m + k) c).set (3 * m + k) d)[i * m + q]?
        = ptr[i * m + q]? := by
  simp only [List.getElem?_set]
  rcases hi with rfl | rfl | rfl | rfl <;>
    rw [if_neg (by omega), if_neg (by omega), if_neg (by omega), if_neg (by omega)]

/-- The loop over rows of integer cells returns the buffer with the columns `k`, `k+1`, ...
filled from the rows in order and the columns before `k` as they were. -/
theorem edgeLoop_filled (m : Nat) (rows : List Row) :
    ∀ (k : Nat) (ptr : List Int), ptr.length = 4 * m → k + rows.length ≤ m →
      (∀ r ∈ rows, ∃ a b c d rest,
        r.values = Value.int a :: Value.int b :: Value.int c :: Value.int d :: rest) →
      ∃ out, edgeLoop m ptr k rows = .ok out ∧ out.length = 4 * m ∧
        (∀ q i, q < k → (i = 0 ∨ i = 1 ∨ i = 2 ∨ i = 3) → out[i * m + q]? = ptr[i * m + q]?) ∧
        (∀ j a b c d rest,
          rows[j]? = some ⟨Value.int a :: Value.int b :: Value.int c :: Value.int d :: rest⟩ →
          out[0 * m + (k + j)]? = some a ∧ out[1 * m + (k + j)]? = some b ∧
          out[2 * m + (k + j)]? = some c ∧ out[3 * m + (k + j)]? = some d) := by
  induction rows with
  | nil =>
    intro k ptr hlen _ _
    refine ⟨ptr, rfl, hlen, fun _ _ _ _ => rfl, ?_⟩
    intro j a b c d rest hj
    simp at hj
  | cons row rows ih =>
    intro k ptr hlen hk hgood
    obtain ⟨a, b, c, d, rest, hv⟩ := hgood row (List.mem_cons_self _ _)
    have hkm : k < m := by
      simp only [List.length_cons] at hk
      omega
    have hb := edgeRowBody_int m ptr k row a b c d rest hv
    obtain ⟨out, ho, hlen2, hkeep, hent⟩ :=
      ih (k + 1)
        ((((ptr.set (0 * m + k) a).set (1 * m + k) b).set (2 * m + k) c).set (3 * m + k) d)
        (by simp only [List.length_set]; exact hlen)
        (by simp only [List.length_cons] at hk; omega)
        (fun r hr => hgood r (List.mem_cons_of_mem _ hr))
    refine ⟨out, ?_, hlen2, ?_, ?_⟩
    · simp only [edgeLoop, hb]
      exact ho
    · intro q i hq hi
      rw [hkeep q i (by omega) hi]
      exact column_kept m ptr k q a b c d hkm (by omega) (by omega) i hi
    · intro j a2 b2 c2 d2 rest2 hj
      cases j with
      | zero =>
        simp only [List.getElem?_cons_zero, Option.some.injEq] at hj
        subst hj
        simp only [List.cons.injEq, Value.int.injEq] at hv
        obtain ⟨rfl, rfl, rfl, rfl, _⟩ := hv
        have hw := column_written m ptr k a2 b2 c2 d2 hlen hkm
        rw [Nat.add_zero, hkeep k 0 (by omega) (Or.inl rfl),
          hkeep k 1 (by omega) (Or.inr (Or.inl rfl)),
          hkeep k 2 (by omega) (Or.inr (Or.inr (Or.inl rfl))),
          hkeep k 3 (by omega) (Or.inr (Or.inr (Or.inr rfl)))]
        exact hw
      | succ j =>
        have he : k + (j + 1) = k + 1 + j := by omega
        rw [he]
        exact hent j a2 b2 c2 d2 rest2 (by simpa using hj)

/-- A row with four cells whose distance cell is an integer and whose src, dst and
timestamp cells are integers is a row of four integer cells. -/
theorem row_int_cells (r : Row) (hlen : 4 ≤ r.values.length) (hd : r.isIntAt 2 = true)
    (hk : r.keysAreInt = true) :
    ∃ a b c d rest,
      r.values = Value.int a :: Value.int b :: Value.int c :: Value.int d :: rest := by
  obtain ⟨values⟩ := r
  match values, hlen with
  | v0 :: v1 :: v2 :: v3 :: rest, _ =>
    simp only [Row.keysAreInt, Row.isIntAt, List.getElem?_cons_zero, List.getElem?_cons_succ,
      Bool.and_eq_true] at hd hk
    obtain ⟨⟨h0, h1⟩, h3⟩ := hk
    cases v0 <;> simp only [Value.isInt] at h0 <;> try exact absurd h0 (by decide)
    cases v1 <;> simp only [Value.isInt] at h1 <;> try exact absurd h1 (by decide)
    cases v2 <;> simp only [Value.isInt] at hd <;> try exact absurd hd (by decide)
    cases v3 <;> simp only [Value.isInt] at h3 <;> try exact absurd h3 (by decide)
    exact ⟨_, _, _, _, rest, rfl⟩

/-- A pass of the loop over a row with four cells, one of src, dst, timestamp not an
integer, raises the check error. -/
theorem edgeRowBody_check (m : Nat) (ptr : List Int) (k : Nat) (r : Row)
    (hlen : 4 ≤ r.values.length) (hk : r.keysAreInt = false) :
    edgeRowBody m ptr k r = .error (.check "internel error: 1") := by
  obtain ⟨values⟩ := r
  match values, hlen with
  | v0 :: v1 :: v2 :: v3 :: rest, _ =>
    simp only [Row.keysAreInt, Row.isIntAt, List.getElem?_cons_zero, List.getElem?_cons_succ,
      Bool.and_eq_false_iff] at hk
    simp only [edgeRowBody, List.getElem?_cons_zero, List.getElem?_cons_succ]
    rcases hk with (h0 | h1) | h3
    · simp [h0]
    · by_cases h0 : v0.isInt = true <;> simp [h0, h1]
    · by_cases h0 : v0.isInt = true <;> by_cases h1 : v1.isInt = true <;> simp [h0, h1, h3]

theorem edgeLoop_append (m : Nat) (pre post : List Row) :
    ∀ (k : Nat) (ptr : List Int),
      edgeLoop m ptr k (pre ++ post) =
        match edgeLoop m ptr k pre with
        | .error e => .error e
        | .ok out => edgeLoop m out (k + pre.length) post := by
  induction pre with
  | nil => intro k ptr; simp [edgeLoop]
  | cons row pre ih =>
    intro k ptr
    simp only [List.cons_append, edgeLoop, List.length_cons]
    cases hb : edgeRowBody m ptr k row with
    | error e => rfl
    | ok out =>
      have he : k + 1 + pre.length = k + (pre.length + 1) := by omega
      have h2 := ih (k + 1) out
      rw [he] at h2
      exact h2

/-- The loop over rows whose cells are integers returns. -/
theorem edgeLoop_ok (m : Nat) (rows : List Row)
    (h : ∀ r ∈ rows, ∃ a b c d rest,
      r.values = Value.int a :: Value.int b :: Value.int c :: Value.int d :: rest) :
    ∀ (k : Nat) (ptr : List Int), ∃ out, edgeLoop m ptr k rows = .ok out := by
  induction rows with
  | nil => intro k ptr; exact ⟨ptr, rfl⟩
  | cons row rows ih =>
    intro k ptr
    obtain ⟨a, b, c, d, rest, hv⟩ := h row (List.mem_cons_self _ _)
    simp only [edgeLoop, edgeRowBody_int m ptr k row a b c d rest hv]
    exact ih (fun r hr => h r (List.mem_cons_of_mem _ hr)) _ _

/-- The only error the loop raises on rows of four cells with an integer distance is the
check error. -/
theorem edgeLoop_error (m : Nat) (rows : List Row)
    (h : ∀ r ∈ rows, 4 ≤ r.values.length ∧ r.isIntAt 2 = true) :
    ∀ (k : Nat) (ptr : List Int) (e : Err),
      edgeLoop m ptr k rows = .error e → e = .check "internel error: 1" := by
  induction rows with
  | nil => intro k ptr e he; simp [edgeLoop] at he
  | cons row rows ih =>
    intro k ptr e he
    obtain ⟨hlen, hd⟩ := h row (List.mem_cons_self _ _)
    cases hk : row.keysAreInt with
    | false =>
      simp only [edgeLoop, edgeRowBody_check m ptr k row hlen hk] at he
      exact (Except.error.inj he).symm
    | true =>
      obtain ⟨a, b, c, d, rest, hv⟩ := row_int_cells row hlen hd hk
      simp only [edgeLoop, edgeRowBody_int m ptr k row a b c d rest hv] at he
      exact ih (fun r hr => h r (List.mem_cons_of_mem _ hr)) _ _ e he

/-- A list with a row that fails the test splits at the first such row. -/
theorem split_at_first_bad (rows : List Row) (h : ∃ r ∈ rows, r.keysAreInt = false) :
    ∃ pre bad post, rows = pre ++ bad :: post ∧ (∀ r ∈ pre, r.keysAreInt = true) ∧
      bad.keysAreInt = false := by
  induction rows with
  | nil =>
    obtain ⟨r, hr, _⟩ := h
    simp at hr
  | cons row rows ih =>
    cases hk : row.keysAreInt with
    | false => exact ⟨[], row, rows, rfl, fun r hr => by simp at hr, hk⟩
    | true =>
      obtain ⟨r, hr, hbad⟩ := h
      rcases List.mem_cons.mp hr with rfl | hr2
      · rw [hk] at hbad
        exact absurd hbad (by decide)
      · obtain ⟨pre, bad, post, he, hpre, hb⟩ := ih ⟨r, hr2, hbad⟩
        refine ⟨row :: pre, bad, post, by rw [he]; rfl, ?_, hb⟩
        intro x hx
        rcases List.mem_cons.mp hx with rfl | hx2
        · exact hk
        · exact hpre x hx2

/-- The loop stops with the check error in the pass for the first row whose src, dst or
timestamp cell is not an integer, after the passes for the rows before it. -/
theorem edgeLoop_first_bad (m : Nat) (pre : List Row) (bad : Row) (post : List Row)
    (hpre : ∀ r ∈ pre, 4 ≤ r.values.length ∧ r.isIntAt 2 = true ∧ r.keysAreInt = true)
    (hlen : 4 ≤ bad.values.length) (hbad : bad.keysAreInt = false) (ptr : List Int) :
    ∃ out, edgeLoop m ptr 0 pre = .ok out ∧
      edgeRowBody m out pre.length bad = .error (.check "internel error: 1") ∧
      edgeLoop m ptr 0 (pre ++ bad :: post) = .error (.check "internel error: 1") := by
  obtain ⟨out, ho⟩ := edgeLoop_ok m pre
    (fun r hr => row_int_cells r (hpre r hr).1 (hpre r hr).2.1 (hpre r hr).2.2) 0 ptr
  have hb := edgeRowBody_check m out pre.length bad hlen hbad
  refine ⟨out, ho, hb, ?_⟩
  rw [edgeLoop_append, ho]
  simp only [edgeLoop, Nat.zero_add, hb]

/-! ### Queries without start vertices or without layers -/

/-- A layer statement after the first does not depend on the start vertices. -/
theorem layerStmt_succ_start (sn : List Int) (k : Nat) (p : LayerParam) :
    layerStmt sn (k + 1) p = layerStmt [] (k + 1) p := by
  rw [layerStmt_parts, layerStmt_parts]
  simp only [putSource, Nat.succ_ne_zero, ne_eq, not_false_eq_true, if_true]

theorem layerStmts_succ_start (sn : List Int) (k : Nat) (ps : List LayerParam) :
    (ps.enumFrom (k + 1)).map (fun kp => layerStmt sn kp.1 kp.2) =
      (ps.enumFrom (k + 1)).map (fun kp => layerStmt [] kp.1 kp.2) := by
  apply List.map_congr_left
  rintro ⟨i, p⟩ hmem
  obtain ⟨hle, _, _⟩ := List.mem_enumFrom hmem
  obtain ⟨j, rfl⟩ : ∃ j, i = j + 1 := ⟨i - 1, by omega⟩
  exact layerStmt_succ_start sn j p

theorem layerStmt_zero_empty (p : LayerParam) :
    layerStmt [] 0 p =
      "$v0 = GO FROM  OVER " ++ p.edge_type ++ putDirection "" p.direction
        ++ putTimeFilter "" p.time_range ++ yieldDistinct ++ putLimit "" p.limit ++ "; " := by
  rw [layerStmt_parts]
  have h : putSource "" [] 0 p = "$v0 = GO FROM  OVER " ++ p.edge_type := by
    simp only [putSource, ne_eq, not_true_eq_false, if_false, putStartNodes]
    have h2 : "" ++ "$v" ++ toString 0 ++ " = GO FROM " ++ " OVER " = "$v0 = GO FROM  OVER " := by
      rfl
    rw [h2]
  rw [h]

/-! ### The verbose flag -/

/-- The statements issued and the result of the loop over the windows do not depend on the
verbose flag nor on what was printed before. -/
theorem gatherWindowLoop_verbose (nebula_execute : String → Except Err (List Row))
    (space_name : String) (start_nodes : List Int) (attrs : List String) (n f : Nat) :
    ∀ (fuel t : Nat) (cout1 cout2 issued : List String) (st : GatherState),
      (gatherWindowLoop true nebula_execute space_name start_nodes attrs n f
          fuel t cout1 issued st).issued =
        (gatherWindowLoop false nebula_execute space_name start_nodes attrs n f
          fuel t cout2 issued st).issued ∧
      (gatherWindowLoop true nebula_execute space_name start_nodes attrs n f
          fuel t cout1 issued st).result =
        (gatherWindowLoop false nebula_execute space_name start_nodes attrs n f
          fuel t cout2 issued st).result := by
  intro fuel
  induction fuel with
  | zero =>
    intro t cout1 cout2 issued st
    simp only [gatherWindowLoop]
    split <;> exact ⟨rfl, rfl⟩
  | succ fuel ih =>
    intro t cout1 cout2 issued st
    simp only [gatherWindowLoop]
    split
    · cases nebula_execute (get_nebula_gather space_name
          (List.take (min (n - t) 512) (List.drop t start_nodes)) attrs) with
      | error e => exact ⟨rfl, rfl⟩
      | ok data =>
        simp only
        cases gatherRowLoop f st data with
        | error e => exact ⟨rfl, rfl⟩
        | ok st2 => exact ih _ _ _ _ _
    · exact ⟨rfl, rfl⟩

/-! ### The bulk-fetch query -/

theorem mem_spec_dedup (l : List Int) (u : Int) : u ∈ spec_dedup l ↔ u ∈ l := by
  induction l with
  | nil => simp [spec_dedup]
  | cons a rest ih =>
    simp only [spec_dedup, List.mem_cons, List.mem_filter, ih, decide_eq_true_eq]
    by_cases h : u = a <;> simp [h]

theorem nodup_spec_dedup (l : List Int) : (spec_dedup l).Nodup := by
  induction l with
  | nil => simp [spec_dedup]
  | cons a rest ih =>
    simp only [spec_dedup, List.nodup_cons, List.mem_filter, decide_eq_true_eq]
    exact ⟨fun h => h.2 rfl, ih.filter _⟩

theorem spec_dedup_sublist (l : List Int) : (spec_dedup l).Sublist l := by
  induction l with
  | nil => simp [spec_dedup]
  | cons a rest ih =>
    simp only [spec_dedup]
    exact List.Sublist.cons₂ a ((List.filter_sublist _).trans ih)

theorem putGatherNodes_append (ss : String) (vis : List Int) (i : Nat) (l : List Int) :
    putGatherNodes ss vis i l = ss ++ putGatherNodes "" vis i l := by
  induction l generalizing ss vis i with
  | nil => simp [putGatherNodes]
  | cons u rest ih =>
    simp only [putGatherNodes]
    split
    · exact ih _ _ _
    · rw [ih, ih (_ ++ toString u)]
      split <;> simp [String.append_assoc]

theorem putGatherNodes_succ (ss : String) (vis : List Int) (i : Nat) (l : List Int) :
    putGatherNodes ss vis (i + 1) l =
      String.intercalate.go ss ","
        (((spec_dedup l).filter (fun v => v ∉ vis)).map toString) := by
  induction l generalizing ss vis i with
  | nil => simp [putGatherNodes, spec_dedup, String.intercalate.go]
  | cons u rest ih =>
    simp only [putGatherNodes, spec_dedup]
    by_cases hu : u ∈ vis
    · rw [if_pos hu, ih, List.filter_cons_of_neg (by simpa using hu), List.filter_filter]
      congr 2
      apply List.filter_congr
      intro v _
      by_cases hv : v ∈ vis
      · simp [hv]
      · have : v ≠ u := fun h => hv (h ▸ hu)
        simp [hv, this]
    · rw [if_neg hu, ih, List.filter_cons_of_pos (by simpa using hu), List.filter_filter]
      simp only [Nat.succ_ne_zero, ne_eq, not_false_eq_true, if_true, List.map_cons,
        String.intercalate.go]
      congr 2
      apply List.filter_congr
      intro v _
      by_cases hv : v ∈ vis <;> by_cases hvu : v = u <;> simp [hv, hvu]

theorem putGatherNodes_zero (l : List Int) :
    putGatherNodes "" [] 0 l = String.intercalate "," ((spec_dedup l).map toString) := by
  cases l with
  | nil => simp [putGatherNodes, spec_dedup, String.intercalate]
  | cons u rest =>
    simp only [putGatherNodes, spec_dedup, List.not_mem_nil, if_false, ne_eq,
      not_true_eq_false, List.map_cons, String.intercalate]
    rw [putGatherNodes_succ, String.empty_append]
    congr 2
    apply List.filter_congr
    intro v _
    by_cases hvu : v = u <;> simp [hvu]

theorem putAttrs_eq (ss : String) (attrs : List String) :
    putAttrs ss attrs = ss ++ spec_attrList attrs := by
  induction attrs generalizing ss with
  | nil => simp [putAttrs, spec_attrList, String.join]
  | cons a rest ih =>
    simp only [putAttrs, spec_attrList, List.map_cons]
    rw [ih, join_cons]
    simp only [spec_attrList, String.append_assoc]

theorem get_nebula_gather_eq_spec (space : String) (window : List Int)
    (attrs : List String) :
    get_nebula_gather space window attrs = spec_gather space window attrs := by
  unfold get_nebula_gather spec_gather
  simp only
  rw [putAttrs_eq, putGatherNodes_append, putGatherNodes_zero]
  have h : ("; FETCH PROP ON * " : String) = "; " ++ "FETCH PROP ON * " := rfl
  rw [h]
  simp only [String.append_assoc, String.empty_append]

/-! ### The loops of `gather_attributes` -/

theorem set_at_length {α : Type} (a : List α) (x v : α) (b : List α) :
    (a ++ x :: b).set a.length v = a ++ v :: b := by
  rw [List.set_append_right _ _ (le_refl _)]
  simp

theorem attrCells_get (f : Nat) (row : Row) (i : Nat) (hi : i < f) :
    (row.attrCells f)[i]? = row.values[i + 1]? := by
  unfold Row.attrCells
  rw [List.getElem?_take_of_lt hi, List.getElem?_drop, Nat.add_comm]

theorem attrCells_succ (row : Row) (i : Nat) (x : Value) (hx : row.values[i + 1]? = some x) :
    row.attrCells (i + 1) = row.attrCells i ++ [x] := by
  unfold Row.attrCells
  rw [List.take_succ, List.getElem?_drop, Nat.add_comm 1 i, hx]
  rfl

theorem attrCells_length (f : Nat) (row : Row) (hlen : f + 1 ≤ row.values.length) :
    (row.attrCells f).length = f := by
  unfold Row.attrCells
  rw [List.length_take, List.length_drop]
  omega

theorem gatherAttrLoop_ok (f k : Nat) (row : Row) (pre rest : List F32)
    (hpre : pre.length = k * f) (hlen : f + 1 ≤ row.values.length)
    (hnum : ∀ x ∈ row.attrCells f, x.isNumeric = true) :
    ∀ (todo i : Nat), i + todo = f →
      gatherAttrLoop f k row
          (pre ++ ((row.attrCells i).map F32.ofValue ++ (List.replicate todo F32.zero ++ rest)))
          i todo
        = .ok (pre ++ ((row.attrCells f).map F32.ofValue ++ rest)) := by
  intro todo
  induction todo with
  | zero =>
    intro i hi
    have : i = f := by omega
    subst this
    simp [gatherAttrLoop]
  | succ todo ih =>
    intro i hi
    have hif : i < f := by omega
    obtain ⟨x, hx⟩ : ∃ x, row.values[i + 1]? = some x :=
      ⟨row.values[i + 1], List.getElem?_eq_getElem (by omega)⟩
    have hxn : x.isNumeric = true :=
      hnum x (List.getElem?_mem ((attrCells_get f row i hif).trans hx))
    have hli : (row.attrCells i).length = i := attrCells_length i row (by omega)
    have hidx : k * f + i = (pre ++ (row.attrCells i).map F32.ofValue).length := by
      rw [List.length_append, List.length_map, hpre, hli]
    simp only [gatherAttrLoop, hx, hxn, not_true_eq_false, if_false]
    rw [if_pos (by
      rw [hidx]
      simp only [List.length_append, List.length_map, List.length_replicate]
      omega)]
    have hbuf : pre ++ ((row.attrCells i).map F32.ofValue
          ++ (List.replicate (todo + 1) F32.zero ++ rest))
        = (pre ++ (row.attrCells i).map F32.ofValue)
          ++ F32.zero :: (List.replicate todo F32.zero ++ rest) := by
      simp [List.replicate_succ]
    rw [hbuf, hidx, set_at_length]
    have h2 := ih (i + 1) (by omega)
    rw [attrCells_succ row i x hx] at h2
    simpa using h2

theorem row_nid_cell (r : Row) (h : r.isIntAt 0 = true) :
    r.values[0]? = some (Value.int r.nid) := by
  obtain ⟨values⟩ := r
  cases values with
  | nil => simp [Row.isIntAt] at h
  | cons v rest =>
    cases v <;> simp [Row.isIntAt, Value.isInt] at h
    simp [Row.nid]

theorem flatCells_length (f : Nat) (rows : List Row)
    (h : ∀ r ∈ rows, f + 1 ≤ r.values.length) :
    (rows.flatMap (fun r => (r.attrCells f).map F32.ofValue)).length = rows.length * f := by
  induction rows with
  | nil => simp
  | cons r rows ih =>
    simp only [List.flatMap_cons, List.length_append, List.length_map, List.length_cons]
    rw [ih (fun x hx => h x (List.mem_cons_of_mem _ hx)),
      attrCells_length f r (h r (List.mem_cons_self _ _)), Nat.succ_mul, Nat.add_comm]

theorem gatherRowBody_ok (n f : Nat) (rows1 : List Row) (r : Row)
    (h1 : ∀ x ∈ rows1, f + 1 ≤ x.values.length) (hcap : rows1.length < n)
    (hlen : f + 1 ≤ r.values.length) (ht : r.typesOk f = true) :
    gatherRowBody f (GatherState.filled n f rows1) r
      = .ok (GatherState.filled n f (rows1 ++ [r])) := by
  simp only [Row.typesOk, Bool.and_eq_true, List.all_eq_true] at ht
  obtain ⟨hid, hnum⟩ := ht
  obtain ⟨c, hc⟩ : ∃ c, n - rows1.length = c + 1 := ⟨n - rows1.length - 1, by omega⟩
  have hc2 : n - (rows1.length + 1) = c := by omega
  have hz : List.replicate ((c + 1) * f) F32.zero
      = (([] : List Value).map F32.ofValue) ++ (List.replicate f F32.zero
          ++ List.replicate (c * f) F32.zero) := by
    rw [Nat.succ_mul, Nat.add_comm, List.replicate_add]
    rfl
  have ha := gatherAttrLoop_ok f rows1.length r
    (rows1.flatMap (fun r => (r.attrCells f).map F32.ofValue))
    (List.replicate (c * f) F32.zero) (flatCells_length f rows1 h1) hlen hnum f 0 (by omega)
  have h0 : r.attrCells 0 = [] := by simp [Row.attrCells]
  rw [h0] at ha
  simp only [gatherRowBody, GatherState.filled, row_nid_cell r hid, Value.isInt, Value.getInt,
    not_true_eq_false, if_false, hc, hz, ha, List.length_append, List.length_map,
    List.length_replicate, List.length_cons, hc2, List.map_append, List.map_cons, List.map_nil,
    List.flatMap_append, List.flatMap_cons, List.flatMap_nil, List.append_nil]
  rw [if_pos (by omega)]
  have hs := set_at_length (rows1.map Row.nid) (0 : Int) r.nid (List.replicate c 0)
  rw [List.length_map] at hs
  simp only [List.map_nil] at ha
  simp only [List.replicate_succ, hs, List.append_assoc, List.singleton_append, ha,
    List.length_nil, Nat.zero_add, hc2]

theorem gatherRowLoop_ok (n f : Nat) (rows2 : List Row) :
    ∀ rows1 : List Row, (∀ x ∈ rows1, f + 1 ≤ x.values.length) →
      (∀ x ∈ rows2, f + 1 ≤ x.values.length ∧ x.typesOk f = true) →
      rows1.length + rows2.length ≤ n →
      gatherRowLoop f (GatherState.filled n f rows1) rows2
        = .ok (GatherState.filled n f (rows1 ++ rows2)) := by
  induction rows2 with
  | nil =>
    intro rows1 _ _ _
    simp [gatherRowLoop]
  | cons r rows2 ih =>
    intro rows1 h1 h2 hcap
    simp only [List.length_cons] at hcap
    obtain ⟨hr1, hr2⟩ := h2 r (List.mem_cons_self _ _)
    simp only [gatherRowLoop, gatherRowBody_ok n f rows1 r h1 (by omega) hr1 hr2]
    have h3 := ih (rows1 ++ [r])
      (by
        intro x hx
        rcases List.mem_append.mp hx with hx | hx
        · exact h1 x hx
        · rw [List.mem_singleton.mp hx]
          exact hr1)
      (fun x hx => h2 x (List.mem_cons_of_mem _ hx))
      (by simp only [List.length_append, List.length_cons, List.length_nil]; omega)
    rw [h3]
    simp

theorem gatherRowLoop_append (f : Nat) (a b : List Row) :
    ∀ st : GatherState,
      gatherRowLoop f st (a ++ b) =
        match gatherRowLoop f st a with
        | .error e => .error e
        | .ok st2 => gatherRowLoop f st2 b := by
  induction a with
  | nil => intro st; simp [gatherRowLoop]
  | cons r a ih =>
    intro st
    simp only [List.cons_append, gatherRowLoop]
    cases gatherRowBody f st r with
    | error e => rfl
    | ok st2 => exact ih st2

theorem gatherWindowLoop_result (verbose : Bool)
    (nebula_execute : String → Except Err (List Row)) (space_name : String)
    (start_nodes : List Int) (attrs : List String) (n f : Nat) :
    ∀ (fuel t : Nat) (cout issued : List String) (st : GatherState) (resps : List (List Row)),
      List.Forall₂ (fun w rs => nebula_execute (get_nebula_gather space_name w attrs) = .ok rs)
        (loopWindows start_nodes n fuel t) resps →
      n ≤ t + 512 * fuel →
      (gatherWindowLoop verbose nebula_execute space_name start_nodes attrs n f
          fuel t cout issued st).result = gatherRowLoop f st resps.flatten := by
  intro fuel
  induction fuel with
  | zero =>
    intro t cout issued st resps hall hfuel
    simp only [loopWindows, List.forall₂_nil_left_iff] at hall
    subst hall
    simp only [gatherWindowLoop]
    rw [if_neg (by omega)]
    rfl
  | succ fuel ih =>
    intro t cout issued st resps hall hfuel
    by_cases ht : t < n
    · simp only [loopWindows, if_pos ht] at hall
      obtain ⟨rs, resps2, hrs, hall2, rfl⟩ := List.forall₂_cons_left_iff.mp hall
      simp only [gatherWindowLoop, if_pos ht, hrs, List.flatten_cons]
      rw [gatherRowLoop_append]
      cases gatherRowLoop f st rs with
      | error e => rfl
      | ok st2 => exact ih _ _ _ _ _ hall2 (by omega)
    · simp only [loopWindows, if_neg ht, List.forall₂_nil_left_iff] at hall
      subst hall
      simp only [gatherWindowLoop, if_neg ht]
      rfl

theorem gatherWindowLoop_issued (verbose : Bool)
    (nebula_execute : String → Except Err (List Row)) (space_name : String)
    (start_nodes : List Int) (attrs : List String) (n f : Nat) :
    ∀ (fuel t : Nat) (cout issued : List String) (st s : GatherState),
      n ≤ t + 512 * fuel →
      (gatherWindowLoop verbose nebula_execute space_name start_nodes attrs n f
          fuel t cout issued st).result = .ok s →
      (gatherWindowLoop verbose nebula_execute space_name start_nodes attrs n f
          fuel t cout issued st).issued =
        issued ++ (loopWindows start_nodes n fuel t).map
          (fun w => get_nebula_gather space_name w attrs) := by
  intro fuel
  induction fuel with
  | zero =>
    intro t cout issued st s hfuel _
    simp only [gatherWindowLoop, loopWindows]
    rw [if_neg (by omega)]
    simp
  | succ fuel ih =>
    intro t cout issued st s hfuel hres
    by_cases ht : t < n
    · simp only [gatherWindowLoop, loopWindows, if_pos ht, List.map_cons] at hres ⊢
      cases hx : nebula_execute (get_nebula_gather space_name
          (List.take (min (n - t) 512) (List.drop t start_nodes)) attrs) with
      | error e =>
        rw [hx] at hres
        exact Except.noConfusion hres
      | ok data =>
        rw [hx] at hres
        simp only at hres ⊢
        cases hr : gatherRowLoop f st data with
        | error e =>
          rw [hr] at hres
          exact Except.noConfusion hres
        | ok st2 =>
          rw [hr] at hres
          simp only at hres ⊢
          rw [ih _ _ _ _ s (by omega) hres]
          simp
    · simp only [gatherWindowLoop, loopWindows, if_neg ht]
      simp

theorem gatherWindowLoop_prefix (verbose : Bool)
    (nebula_execute : String → Except Err (List Row)) (space_name : String)
    (start_nodes : List Int) (attrs : List String) (n f : Nat) :
    ∀ (fuel t : Nat) (cout issued : List String) (st : GatherState),
      ∃ j, (gatherWindowLoop verbose nebula_execute space_name start_nodes attrs n f
          fuel t cout issued st).issued =
        issued ++ ((loopWindows start_nodes n fuel t).map
          (fun w => get_nebula_gather space_name w attrs)).take j := by
  intro fuel
  induction fuel with
  | zero =>
    intro t cout issued st
    refine ⟨0, ?_⟩
    simp only [gatherWindowLoop]
    split <;> simp
  | succ fuel ih =>
    intro t cout issued st
    by_cases ht : t < n
    · simp only [gatherWindowLoop, loopWindows, if_pos ht, List.map_cons]
      cases nebula_execute (get_nebula_gather space_name
          (List.take (min (n - t) 512) (List.drop t start_nodes)) attrs) with
      | error e => exact ⟨1, by simp⟩
      | ok data =>
        simp only
        cases gatherRowLoop f st data with
        | error e => exact ⟨1, by simp⟩
        | ok st2 =>
          obtain ⟨j, hj⟩ := ih (t + 512) (if verbose = true then cout ++ [get_nebula_gather
            space_name (List.take (min (n - t) 512) (List.drop t start_nodes)) attrs] else cout)
            (issued ++ [get_nebula_gather space_name
              (List.take (min (n - t) 512) (List.drop t start_nodes)) attrs]) st2
          exact ⟨j + 1, by simp only [hj]; simp⟩
    · refine ⟨0, ?_⟩
      simp only [gatherWindowLoop, if_neg ht]
      simp

theorem take_min_length {α : Type} (l : List α) (m : Nat) :
    l.take (min l.length m) = l.take m := by
  rcases le_total l.length m with h | h
  · rw [min_eq_left h, List.take_of_length_le h, List.take_of_length_le (le_refl _)]
  · rw [min_eq_right h]

theorem loopWindows_eq_range (start : List Int) :
    ∀ fuel j : Nat, start.length ≤ 512 * j + 512 * fuel →
      loopWindows start start.length fuel (512 * j) =
        (List.range' j ((start.length - 512 * j + 511) / 512)).map
          (fun i => (start.drop (512 * i)).take 512) := by
  intro fuel
  induction fuel with
  | zero =>
    intro j hj
    have h0 : (start.length - 512 * j + 511) / 512 = 0 := by omega
    simp [loopWindows, h0]
  | succ fuel ih =>
    intro j hj
    by_cases ht : 512 * j < start.length
    · obtain ⟨c, hc⟩ : ∃ c, (start.length - 512 * j + 511) / 512 = c + 1 :=
        ⟨(start.length - 512 * j + 511) / 512 - 1, by omega⟩
      have hc2 : (start.length - 512 * (j + 1) + 511) / 512 = c := by omega
      have hw : List.take (min (start.length - 512 * j) 512) (List.drop (512 * j) start)
          = List.take 512 (List.drop (512 * j) start) := by
        have := take_min_length (List.drop (512 * j) start) 512
        rwa [List.length_drop] at this
      have hj2 : 512 * j + 512 = 512 * (j + 1) := by omega
      simp only [loopWindows, if_pos ht, hc, List.range'_succ, List.map_cons, hw, hj2]
      rw [ih (j + 1) (by omega), hc2]
    · have h0 : (start.length - 512 * j + 511) / 512 = 0 := by omega
      simp [loopWindows, if_neg ht, h0]

theorem loopWindows_eq_spec (start : List Int) :
    loopWindows start start.length start.length 0 = spec_windows start := by
  have h := loopWindows_eq_range start start.length 0 (by omega)
  simp only [Nat.mul_zero, Nat.sub_zero] at h
  rw [h, spec_windows, List.range_eq_range']

theorem loopWindows_flatten (start : List Int) :
    ∀ fuel t : Nat, start.length ≤ t + 512 * fuel →
      (loopWindows start start.length fuel t).flatten = start.drop t := by
  intro fuel
  induction fuel with
  | zero =>
    intro t ht
    simp only [loopWindows, List.flatten_nil]
    exact (List.drop_eq_nil_of_le (by omega)).symm
  | succ fuel ih =>
    intro t ht
    by_cases h : t < start.length
    · have hw : List.take (min (start.length - t) 512) (List.drop t start)
          = List.take 512 (List.drop t start) := by
        have := take_min_length (List.drop t start) 512
        rwa [List.length_drop] at this
      simp only [loopWindows, if_pos h, List.flatten_cons, hw]
      rw [ih (t + 512) (by omega), ← List.drop_drop, List.take_append_drop]
    · simp only [loopWindows, if_neg h, List.flatten_nil]
      exact (List.drop_eq_nil_of_le (by omega)).symm

theorem spec_windows_flatten (start : List Int) : (spec_windows start).flatten = start := by
  rw [← loopWindows_eq_spec, loopWindows_flatten start start.length 0 (by omega)]
  rfl

theorem gatherAttrLoop_bad (f k : Nat) (row : Row) (hlen : f + 1 ≤ row.values.length) :
    ∀ (todo i : Nat) (buf : List F32), i + todo = f → k * f + f ≤ buf.length →
      (∃ j x, i ≤ j ∧ j < f ∧ row.values[j + 1]? = some x ∧ x.isNumeric = false) →
      gatherAttrLoop f k row buf i todo = .error (.check "internel error: 2") := by
  intro todo
  induction todo with
  | zero =>
    intro i buf hi _ hbad
    obtain ⟨j, _, h1, h2, _⟩ := hbad
    omega
  | succ todo ih =>
    intro i buf hi hcap hbad
    obtain ⟨x, hx⟩ : ∃ x, row.values[i + 1]? = some x :=
      ⟨row.values[i + 1], List.getElem?_eq_getElem (by omega)⟩
    cases hxn : x.isNumeric with
    | false => simp [gatherAttrLoop, hx, hxn]
    | true =>
      simp only [gatherAttrLoop, hx, hxn, not_true_eq_false, if_false]
      rw [if_pos (by omega)]
      apply ih (i + 1) _ (by omega) (by rw [List.length_set]; exact hcap)
      obtain ⟨j, y, h1, h2, h3, h4⟩ := hbad
      refine ⟨j, y, ?_, h2, h3, h4⟩
      by_contra hlt
      have hji : j = i := by omega
      subst hji
      rw [hx] at h3
      rw [Option.some.inj h3, h4] at hxn
      exact Bool.noConfusion hxn

theorem gatherRowBody_bad (n f : Nat) (rows1 : List Row) (r : Row)
    (h1 : ∀ x ∈ rows1, f + 1 ≤ x.values.length) (hcap : rows1.length < n)
    (hlen : f + 1 ≤ r.values.length) (ht : r.typesOk f = false) :
    gatherRowBody f (GatherState.filled n f rows1) r = .error (.check "internel error: 1") ∨
    gatherRowBody f (GatherState.filled n f rows1) r = .error (.check "internel error: 2") := by
  cases hid : r.isIntAt 0 with
  | false =>
    left
    obtain ⟨v, hv⟩ : ∃ v, r.values[0]? = some v :=
      ⟨r.values[0], List.getElem?_eq_getElem (by omega)⟩
    have hvi : v.isInt = false := by
      simpa [Row.isIntAt, hv] using hid
    simp [gatherRowBody, hv, hvi]
  | true =>
    right
    simp only [Row.typesOk, hid, Bool.true_and, List.all_eq_false] at ht
    obtain ⟨x, hxmem, hxn⟩ := ht
    obtain ⟨j, hj⟩ := List.mem_iff_getElem?.mp hxmem
    have hjf : j < f := by
      have := (List.getElem?_eq_some.mp hj).1
      rw [attrCells_length f r hlen] at this
      exact this
    rw [attrCells_get f r j hjf] at hj
    obtain ⟨c, hc⟩ : ∃ c, n - rows1.length = c + 1 := ⟨n - rows1.length - 1, by omega⟩
    have hbuf : rows1.length * f + f ≤
        (rows1.flatMap (fun r => (r.attrCells f).map F32.ofValue)
          ++ List.replicate ((n - rows1.length) * f) F32.zero).length := by
      rw [List.length_append, flatCells_length f rows1 h1, List.length_replicate, hc,
        Nat.succ_mul]
      omega
    have ha := gatherAttrLoop_bad f rows1.length r hlen f 0 _ (by omega) hbuf
      ⟨j, x, by omega, hjf, hj, by simpa using hxn⟩
    simp only [gatherRowBody, GatherState.filled, row_nid_cell r hid, Value.isInt, Value.getInt,
      not_true_eq_false, if_false, ha, List.length_append, List.length_map,
      List.length_replicate]
    rw [if_pos (by omega)]

/-- A list with a row that fails a test splits at the first such row. -/
theorem split_at_first (p : Row → Bool) (rows : List Row) (h : ∃ r ∈ rows, p r = false) :
    ∃ pre bad post, rows = pre ++ bad :: post ∧ (∀ r ∈ pre, p r = true) ∧ p bad = false := by
  induction rows with
  | nil =>
    obtain ⟨r, hr, _⟩ := h
    simp at hr
  | cons row rows ih =>
    cases hk : p row with
    | false => exact ⟨[], row, rows, rfl, fun r hr => by simp at hr, hk⟩
    | true =>
      obtain ⟨r, hr, hbad⟩ := h
      rcases List.mem_cons.mp hr with rfl | hr2
      · rw [hk] at hbad
        exact absurd hbad (by decide)
      · obtain ⟨pre, bad, post, he, hpre, hb⟩ := ih ⟨r, hr2, hbad⟩
        refine ⟨row :: pre, bad, post, by rw [he]; rfl, ?_, hb⟩
        intro x hx
        rcases List.mem_cons.mp hx with rfl | hx2
        · exact hk
        · exact hpre x hx2

/-- The loop over the rows fails with a check error when a row has an id cell that is not
an integer or an attribute cell that is not numeric. -/
theorem gatherRowLoop_bad (n f : Nat) (rows : List Row)
    (hshape : ∀ r ∈ rows, f + 1 ≤ r.values.length) (hcap : rows.length ≤ n)
    (hbad : ∃ r ∈ rows, r.typesOk f = false) :
    gatherRowLoop f (GatherState.filled n f []) rows = .error (.check "internel error: 1") ∨
    gatherRowLoop f (GatherState.filled n f []) rows = .error (.check "internel error: 2") := by
  obtain ⟨pre, bad, post, he, hpre, hb⟩ := split_at_first (Row.typesOk f) rows hbad
  subst he
  have hlenle : pre.length < n := by
    simp only [List.length_append, List.length_cons] at hcap
    omega
  have hpre_shape : ∀ x ∈ pre, f + 1 ≤ x.values.length :=
    fun x hx => hshape x (List.mem_append_left _ hx)
  have hok := gatherRowLoop_ok n f pre [] (fun x hx => by simp at hx)
    (fun x hx => ⟨hpre_shape x hx, hpre x hx⟩) (by simp only [List.length_nil]; omega)
  rw [List.nil_append] at hok
  rw [gatherRowLoop_append, hok]
  simp only [gatherRowLoop]
  rcases gatherRowBody_bad n f pre bad hpre_shape hlenle
    (hshape bad (List.mem_append_right _ (List.mem_cons_self _ _))) hb with h | h
  · left
    rw [h]
  · right
    rw [h]

theorem filled_nil (n f : Nat) :
    GatherState.filled n f [] = ⟨0, List.replicate n 0, List.replicate (n * f) F32.zero⟩ := by
  simp [GatherState.filled]

/-- When the store answers every window, the result of `gather_attributes` is the result of
the loop over the rows of all answers in order, cut to the rows stored. -/
theorem gather_attributes_result (c : QueryGraphChannel)
    (nebula_execute : String → Except Err (List Row)) (space_name : String)
    (start_nodes : List Int) (attrs : List String) (resps : List (List Row))
    (hexec : List.Forall₂
      (fun w rs => nebula_execute (get_nebula_gather space_name w attrs) = .ok rs)
      (spec_windows start_nodes) resps) :
    (c.gather_attributes nebula_execute space_name start_nodes attrs).result =
      match gatherRowLoop attrs.length (GatherState.filled start_nodes.length attrs.length [])
          resps.flatten with
      | .error e => .error e
      | .ok st =>
        .ok ⟨st.node_index.take st.k,
          ⟨st.k, attrs.length, st.node_attrs.take (st.k * attrs.length)⟩⟩ := by
  rw [← loopWindows_eq_spec] at hexec
  have h := gatherWindowLoop_result c.verbose nebula_execute space_name start_nodes attrs
    start_nodes.length attrs.length start_nodes.length 0 [] []
    (GatherState.filled start_nodes.length attrs.length []) resps hexec (by omega)
  rw [filled_nil] at h
  simp only [QueryGraphChannel.gather_attributes]
  rw [h, filled_nil]
  split <;> rename_i heq <;> simp only [heq]

theorem gather_attributes_ok (c : QueryGraphChannel)
    (nebula_execute : String → Except Err (List Row)) (space_name : String)
    (start_nodes : List Int) (attrs : List String) (resps : List (List Row))
    (hexec : List.Forall₂
      (fun w rs => nebula_execute (get_nebula_gather space_name w attrs) = .ok rs)
      (spec_windows start_nodes) resps)
    (htyped : ∀ r ∈ resps.flatten,
      attrs.length + 1 ≤ r.values.length ∧ r.typesOk attrs.length = true)
    (hcap : resps.flatten.length ≤ start_nodes.length) :
    (c.gather_attributes nebula_execute space_name start_nodes attrs).result =
      .ok ⟨resps.flatten.map Row.nid,
        ⟨resps.flatten.length, attrs.length,
          resps.flatten.flatMap (fun r => (r.attrCells attrs.length).map F32.ofValue)⟩⟩ := by
  rw [gather_attributes_result c nebula_execute space_name start_nodes attrs resps hexec]
  have hok := gatherRowLoop_ok start_nodes.length attrs.length resps.flatten []
    (fun x hx => by simp at hx) htyped (by simp only [List.length_nil]; omega)
  rw [List.nil_append] at hok
  rw [hok]
  simp only [GatherState.filled]
  rw [List.take_left' (List.length_map _ _),
    List.take_left' (flatCells_length attrs.length resps.flatten (fun r hr => (htyped r hr).1))]

theorem flatCells_entry (f : Nat) (rows : List Row)
    (hshape : ∀ r ∈ rows, f + 1 ≤ r.values.length) :
    ∀ (j i : Nat) (r : Row), i < f → rows[j]? = some r →
      (rows.flatMap (fun r => (r.attrCells f).map F32.ofValue))[j * f + i]?
        = (r.values[i + 1]?).map F32.ofValue := by
  induction rows with
  | nil => intro j i r _ hr; simp at hr
  | cons a rows ih =>
    intro j i r hi hr
    have hla : ((a.attrCells f).map F32.ofValue).length = f := by
      rw [List.length_map, attrCells_length f a (hshape a (List.mem_cons_self _ _))]
    cases j with
    | zero =>
      simp only [List.getElem?_cons_zero, Option.some.injEq] at hr
      subst hr
      rw [List.flatMap_cons, Nat.zero_mul, Nat.zero_add,
        List.getElem?_append_left (by rw [hla]; exact hi), List.getElem?_map,
        attrCells_get f a i hi]
    | succ j =>
      rw [List.flatMap_cons, List.getElem?_append_right (by rw [hla, Nat.succ_mul]; omega), hla]
      have hsub : (j + 1) * f + i - f = j * f + i := by
        rw [Nat.succ_mul]
        omega
      rw [hsub]
      exact ih (fun x hx => hshape x (List.mem_cons_of_mem _ hx)) j i r hi (by simpa using hr)

/-! ### Windows and counts -/

theorem spec_windows_length (start : List Int) :
    (spec_windows start).length = (start.length + 511) / 512 := by
  simp [spec_windows]

theorem spec_windows_get (start : List Int) (j : Nat) (hj : j < (start.length + 511) / 512) :
    (spec_windows start)[j]? = some ((start.drop (512 * j)).take 512) := by
  simp [spec_windows, List.getElem?_map, List.getElem?_range hj]

theorem window_length (start : List Int) (j : Nat) :
    ((start.drop (512 * j)).take 512).length
      = min (512 * (j + 1)) start.length - 512 * j := by
  rw [List.length_take, List.length_drop]
  omega

theorem spec_dedup_replicate (n : Nat) (a : Int) :
    spec_dedup (List.replicate (n + 1) a) = [a] := by
  induction n with
  | zero => simp [spec_dedup]
  | succ n ih =>
    rw [List.replicate_succ, spec_dedup, ih]
    simp

theorem spec_windows_513 (a : Int) :
    spec_windows (List.replicate 513 a) = [List.replicate 512 a, List.replicate 1 a] := by
  have hc : ((List.replicate 513 a).length + 511) / 512 = 2 := by
    rw [List.length_replicate]
  have hr : List.range 2 = [0, 1] := rfl
  simp only [spec_windows, hc, hr, List.map_cons, List.map_nil, List.drop_replicate,
    List.take_replicate]
  rfl

theorem spec_windows_single (start : List Int) (h0 : 0 < start.length)
    (h : start.length ≤ 512) : spec_windows start = [start] := by
  have hc : (start.length + 511) / 512 = 1 := by omega
  simp [spec_windows, hc, List.range_succ, List.take_of_length_le h]

theorem spec_windows_nil : spec_windows [] = [] := by
  simp [spec_windows]

theorem dedup_sum_le (ws : List (List Int)) :
    (ws.map (fun w => (spec_dedup w).length)).sum ≤ ws.flatten.length := by
  induction ws with
  | nil => simp
  | cons w ws ih =>
    simp only [List.map_cons, List.sum_cons, List.flatten_cons, List.length_append]
    have := (spec_dedup_sublist w).length_le
    omega

theorem responses_length (nebula_execute : String → Except Err (List Row))
    (space_name : String) (attrs : List String) (ws : List (List Int))
    (resps : List (List Row))
    (h : List.Forall₂
      (fun w rs => nebula_execute (get_nebula_gather space_name w attrs) = .ok rs ∧
        (rs.map Row.nid).Perm (spec_dedup w)) ws resps) :
    resps.flatten.length = (ws.map (fun w => (spec_dedup w).length)).sum := by
  induction h with
  | nil => simp
  | cons hd _ ih =>
    simp only [List.flatten_cons, List.length_append, List.map_cons, List.sum_cons, ih]
    have := hd.2.length_eq
    rw [List.length_map] at this
    omega

theorem gather_attributes_issued (c : QueryGraphChannel)
    (nebula_execute : String → Except Err (List Row)) (space_name : String)
    (start_nodes : List Int) (attrs : List String) :
    (c.gather_attributes nebula_execute space_name start_nodes attrs).issued =
      (gatherWindowLoop c.verbose nebula_execute space_name start_nodes attrs
        start_nodes.length attrs.length start_nodes.length 0 [] []
        ⟨0, List.replicate start_nodes.length 0,
          List.replicate (start_nodes.length * attrs.length) F32.zero⟩).issued := by
  simp only [QueryGraphChannel.gather_attributes]
  split <;> rfl

theorem gather_attributes_loop_ok (c : QueryGraphChannel)
    (nebula_execute : String → Except Err (List Row)) (space_name : String)
    (start_nodes : List Int) (attrs : List String) (arrays : AttributeArrays)
    (h : (c.gather_attributes nebula_execute space_name start_nodes attrs).result
      = .ok arrays) :
    ∃ st, (gatherWindowLoop c.verbose nebula_execute space_name start_nodes attrs
        start_nodes.length attrs.length start_nodes.length 0 [] []
        ⟨0, List.replicate start_nodes.length 0,
          List.replicate (start_nodes.length * attrs.length) F32.zero⟩).result = .ok st := by
  simp only [QueryGraphChannel.gather_attributes] at h
  split at h
  · exact Except.noConfusion h
  · rename_i st hst
    exact ⟨st, hst⟩

/-! ### Sessions -/

/-- On the success path `release` is called before the session's lifetime ends. -/
theorem nebula_execute_success (store : String → ExecutionResponse) (stmt : String)
    (h : (store stmt).succeeded = true) :
    nebula_execute true store stmt =
      ([SessionEvent.getSession, SessionEvent.execute stmt, SessionEvent.release,
          SessionEvent.destroy], .ok (store stmt)) := by
  simp [nebula_execute, h]

/-- On a non-success answer of the store the check throws before the call of `release`:
the session is released on this path only if the end of its lifetime releases it. -/
theorem nebula_execute_failure (store : String → ExecutionResponse) (stmt : String)
    (h : (store stmt).succeeded = false) (release_on_destroy : Bool) :
    nebula_execute true store stmt =
        ([SessionEvent.getSession, SessionEvent.execute stmt, SessionEvent.destroy],
          .error (.check (store stmt).errorMsg)) ∧
    sessionReleased release_on_destroy (nebula_execute true store stmt).1
      = release_on_destroy := by
  have he : nebula_execute true store stmt =
      ([SessionEvent.getSession, SessionEvent.execute stmt, SessionEvent.destroy],
        .error (.check (store stmt).errorMsg)) := by
    simp [nebula_execute, h]
  refine ⟨he, ?_⟩
  rw [he]
  simp [sessionReleased]

/-- When the end of a session's lifetime releases it, every way out of `nebula_execute`
leaves the session released. -/
theorem nebula_execute_released_of_destroy (session_valid : Bool)
    (store : String → ExecutionResponse) (stmt : String) :
    sessionReleased true (nebula_execute session_valid store stmt).1 = true := by
  cases session_valid <;> cases h : (store stmt).succeeded <;>
    simp [nebula_execute, sessionReleased, h]

/-! ### Where a run of `gather_attributes` stops -/

/-- The loop over the rows, started after the rows `rows1` are stored, fails with a check
error when one of its rows has an id cell that is not an integer or an attribute cell that
is not numeric. -/
theorem gatherRowLoop_bad_from (n f : Nat) (rows1 rows : List Row)
    (h1 : ∀ r ∈ rows1, f + 1 ≤ r.values.length)
    (hshape : ∀ r ∈ rows, f + 1 ≤ r.values.length) (hcap : rows1.length + rows.length ≤ n)
    (hbad : ∃ r ∈ rows, r.typesOk f = false) :
    gatherRowLoop f (GatherState.filled n f rows1) rows
        = .error (.check "internel error: 1") ∨
      gatherRowLoop f (GatherState.filled n f rows1) rows
        = .error (.check "internel error: 2") := by
  obtain ⟨pre, bad, post, he, hpre, hb⟩ := split_at_first (Row.typesOk f) rows hbad
  subst he
  simp only [List.length_append, List.length_cons] at hcap
  have hpre_shape : ∀ x ∈ pre, f + 1 ≤ x.values.length :=
    fun x hx => hshape x (List.mem_append_left _ hx)
  have hok := gatherRowLoop_ok n f pre rows1 h1
    (fun x hx => ⟨hpre_shape x hx, hpre x hx⟩) (by omega)
  rw [gatherRowLoop_append, hok]
  simp only [gatherRowLoop]
  have h2 : ∀ x ∈ rows1 ++ pre, f + 1 ≤ x.values.length := by
    intro x hx
    rcases List.mem_append.mp hx with hx | hx
    · exact h1 x hx
    · exact hpre_shape x hx
  rcases gatherRowBody_bad n f (rows1 ++ pre) bad h2
    (by rw [List.length_append]; omega)
    (hshape bad (List.mem_append_right _ (List.mem_cons_self _ _))) hb with h | h
  · left
    rw [h]
  · right
    rw [h]

/-- The loop over the windows stops at the first window whose query the store rejects or
whose rows make the loop over the rows fail: the queries of the windows up to this one
have been issued, and the failure is the result. -/
theorem gatherWindowLoop_stop (verbose : Bool)
    (nebula_execute : String → Except Err (List Row)) (space_name : String)
    (start_nodes : List Int) (attrs : List String) (n f : Nat) :
    ∀ (fuel t : Nat) (cout issued : List String) (st st2 : GatherState)
      (before : List (List Int)) (pre : List (List Row)) (w : List Int)
      (after : List (List Int)) (e : Err),
      loopWindows start_nodes n fuel t = before ++ w :: after →
      List.Forall₂ (fun w rs => nebula_execute (get_nebula_gather space_name w attrs) = .ok rs)
        before pre →
      gatherRowLoop f st pre.flatten = .ok st2 →
      (nebula_execute (get_nebula_gather space_name w attrs) = .error e ∨
        ∃ rs, nebula_execute (get_nebula_gather space_name w attrs) = .ok rs ∧
          gatherRowLoop f st2 rs = .error e) →
      (gatherWindowLoop verbose nebula_execute space_name start_nodes attrs n f
          fuel t cout issued st).issued =
        issued ++ (before ++ [w]).map (fun w => get_nebula_gather space_name w attrs) ∧
      (gatherWindowLoop verbose nebula_execute space_name start_nodes attrs n f
          fuel t cout issued st).result = .error e := by
  intro fuel
  induction fuel with
  | zero =>
    intro t cout issued st st2 before pre w after e hw _ _ _
    simp only [loopWindows] at hw
    exact absurd hw (by simp)
  | succ fuel ih =>
    intro t cout issued st st2 before pre w after e hw hpre hst hfail
    by_cases ht : t < n
    · simp only [loopWindows, if_pos ht] at hw
      cases before with
      | nil =>
        simp only [List.nil_append, List.cons.injEq] at hw
        obtain ⟨hw0, _⟩ := hw
        rw [List.forall₂_nil_left_iff] at hpre
        subst hpre
        simp only [List.flatten_nil, gatherRowLoop, Except.ok.injEq] at hst
        subst hst
        simp only [gatherWindowLoop, if_pos ht, hw0, List.nil_append, List.map_cons,
          List.map_nil]
        rcases hfail with he | ⟨rs, hrs, hloop⟩
        · rw [he]
          simp
        · rw [hrs]
          simp [hloop]
      | cons b before2 =>
        simp only [List.cons_append, List.cons.injEq] at hw
        obtain ⟨hw0, hrest⟩ := hw
        obtain ⟨rs0, pre2, hrs0, hpre2, rfl⟩ := List.forall₂_cons_left_iff.mp hpre
        rw [List.flatten_cons, gatherRowLoop_append] at hst
        cases hl : gatherRowLoop f st rs0 with
        | error e2 =>
          rw [hl] at hst
          exact Except.noConfusion hst
        | ok st1 =>
          rw [hl] at hst
          simp only at hst
          rw [← hw0] at hrs0
          simp only [gatherWindowLoop, if_pos ht, hrs0, hl]
          obtain ⟨hi, hr⟩ := ih (t + 512) _ (issued ++ [get_nebula_gather space_name
            (List.take (min (n - t) 512) (List.drop t start_nodes)) attrs]) st1 st2 before2
            pre2 w after e hrest hpre2 hst hfail
          refine ⟨?_, hr⟩
          rw [hi, hw0]
          simp
    · simp only [loopWindows, if_neg ht] at hw
      exact absurd hw (by simp)

theorem gather_attributes_error (c : QueryGraphChannel)
    (nebula_execute : String → Except Err (List Row)) (space_name : String)
    (start_nodes : List Int) (attrs : List String) (e : Err)
    (h : (gatherWindowLoop c.verbose nebula_execute space_name start_nodes attrs
        start_nodes.length attrs.length start_nodes.length 0 [] []
        ⟨0, List.replicate start_nodes.length 0,
          List.replicate (start_nodes.length * attrs.length) F32.zero⟩).result = .error e) :
    (c.gather_attributes nebula_execute space_name start_nodes attrs).result = .error e := by
  simp only [QueryGraphChannel.gather_attributes]
  rw [h]

/-- A call of `gather_attributes` stops at the first window that fails: the windows before
it were answered with well-typed rows, and either the store rejects its query or one of
its rows fails a type check. -/
theorem gather_attributes_stop (c : QueryGraphChannel)
    (nebula_execute : String → Except Err (List Row)) (space_name : String)
    (start_nodes : List Int) (attrs : List String)
    (before : List (List Int)) (pre : List (List Row)) (w : List Int)
    (after : List (List Int))
    (hw : spec_windows start_nodes = before ++ w :: after)
    (hpre : List.Forall₂
      (fun w rs => nebula_execute (get_nebula_gather space_name w attrs) = .ok rs) before pre)
    (htyped : ∀ r ∈ pre.flatten,
      attrs.length + 1 ≤ r.values.length ∧ r.typesOk attrs.length = true) :
    (∀ e, nebula_execute (get_nebula_gather space_name w attrs) = .error e →
      pre.flatten.length ≤ start_nodes.length →
      (c.gather_attributes nebula_execute space_name start_nodes attrs).issued =
          (before ++ [w]).map (fun w => get_nebula_gather space_name w attrs) ∧
        (c.gather_attributes nebula_execute space_name start_nodes attrs).result
          = .error e) ∧
    (∀ rs, nebula_execute (get_nebula_gather space_name w attrs) = .ok rs →
      (∀ r ∈ rs, attrs.length + 1 ≤ r.values.length) →
      pre.flatten.length + rs.length ≤ start_nodes.length →
      (∃ r ∈ rs, r.typesOk attrs.length = false) →
      (c.gather_attributes nebula_execute space_name start_nodes attrs).issued =
          (before ++ [w]).map (fun w => get_nebula_gather space_name w attrs) ∧
        ((c.gather_attributes nebula_execute space_name start_nodes attrs).result
            = .error (.check "internel error: 1") ∨
          (c.gather_attributes nebula_execute space_name start_nodes attrs).result
            = .error (.check "internel error: 2"))) := by
  rw [← loopWindows_eq_spec] at hw
  have hshape1 : ∀ r ∈ pre.flatten, attrs.length + 1 ≤ r.values.length :=
    fun r hr => (htyped r hr).1
  have hstop := fun (e : Err) (hcap : pre.flatten.length ≤ start_nodes.length) =>
    gatherWindowLoop_stop c.verbose nebula_execute space_name start_nodes attrs
      start_nodes.length attrs.length start_nodes.length 0 [] []
      (GatherState.filled start_nodes.length attrs.length [])
      (GatherState.filled start_nodes.length attrs.length pre.flatten)
      before pre w after e hw hpre
      (by
        have := gatherRowLoop_ok start_nodes.length attrs.length pre.flatten []
          (fun x hx => by simp at hx) htyped (by simp only [List.length_nil]; omega)
        rwa [List.nil_append] at this)
  simp only [filled_nil, List.nil_append] at hstop
  refine ⟨?_, ?_⟩
  · intro e he hcap
    obtain ⟨hi, hr⟩ := hstop e hcap (Or.inl he)
    exact ⟨by rw [gather_attributes_issued, hi], gather_attributes_error _ _ _ _ _ _ hr⟩
  · intro rs hrs hshape hcap hbad
    rcases gatherRowLoop_bad_from start_nodes.length attrs.length pre.flatten rs hshape1
      hshape hcap hbad with h | h
    · obtain ⟨hi, hr⟩ := hstop _ (by omega) (Or.inr ⟨rs, hrs, h⟩)
      exact ⟨by rw [gather_attributes_issued, hi],
        Or.inl (gather_attributes_error _ _ _ _ _ _ hr)⟩
    · obtain ⟨hi, hr⟩ := hstop _ (by omega) (Or.inr ⟨rs, hrs, h⟩)
      exact ⟨by rw [gather_attributes_issued, hi],
        Or.inr (gather_attributes_error _ _ _ _ _ _ hr)⟩

/-! ### Stores that reject queries -/

theorem forall2_returnedRows (nebula_execute : String → Except Err (List Row))
    (space_name : String) (attrs : List String) (ws : List (List Int))
    (h : ∀ w ∈ ws, ∃ rs, nebula_execute (get_nebula_gather space_name w attrs) = .ok rs) :
    List.Forall₂ (fun w rs => nebula_execute (get_nebula_gather space_name w attrs) = .ok rs)
      ws (ws.map fun w => returnedRows nebula_execute (get_nebula_gather space_name w attrs)) := by
  induction ws with
  | nil => exact .nil
  | cons w ws ih =>
    obtain ⟨rs, hrs⟩ := h w (List.mem_cons_self _ _)
    refine .cons ?_ (ih (fun x hx => h x (List.mem_cons_of_mem _ hx)))
    simp only [returnedRows, hrs]

theorem flatten_map_returnedRows (nebula_execute : String → Except Err (List Row))
    (space_name : String) (attrs : List String) (ws : List (List Int)) :
    (ws.map fun w => returnedRows nebula_execute
        (get_nebula_gather space_name w attrs)).flatten =
      ws.flatMap fun w => returnedRows nebula_execute (get_nebula_gather space_name w attrs) := by
  induction ws with
  | nil => rfl
  | cons w ws ih => simp only [List.map_cons, List.flatten_cons, List.flatMap_cons, ih]

/-- A list with a window that has a property splits at the first such window. -/
theorem split_at_first_window (P : List Int → Prop) (ws : List (List Int))
    (h : ∃ w ∈ ws, P w) :
    ∃ before w after, ws = before ++ w :: after ∧ (∀ x ∈ before, ¬ P x) ∧ P w := by
  induction ws with
  | nil =>
    obtain ⟨w, hw, _⟩ := h
    simp at hw
  | cons a ws ih =>
    by_cases ha : P a
    · exact ⟨[], a, ws, rfl, fun x hx => by simp at hx, ha⟩
    · obtain ⟨w, hw, hp⟩ := h
      rcases List.mem_cons.mp hw with rfl | hw2
      · exact absurd hp ha
      · obtain ⟨before, b, after, he, hb, hpb⟩ := ih ⟨w, hw2, hp⟩
        refine ⟨a :: before, b, after, by rw [he]; rfl, ?_, hpb⟩
        intro x hx
        rcases List.mem_cons.mp hx with rfl | hx2
        · exact ha
        · exact hb x hx2

/-- For a store whose rows have enough cells and fit the buffers: when the store rejects
the query of some window, or returns for some window a row that fails a type check, the
call fails, with the store's error or with a check error. -/
theorem gather_attributes_fails (c : QueryGraphChannel)
    (nebula_execute : String → Except Err (List Row)) (space_name : String)
    (start_nodes : List Int) (attrs : List String)
    (hshape : ∀ w ∈ spec_windows start_nodes,
      ∀ r ∈ returnedRows nebula_execute (get_nebula_gather space_name w attrs),
        attrs.length + 1 ≤ r.values.length)
    (hcap : ((spec_windows start_nodes).flatMap fun w =>
        returnedRows nebula_execute (get_nebula_gather space_name w attrs)).length
      ≤ start_nodes.length)
    (hbad : ∃ w ∈ spec_windows start_nodes,
      (∃ e, nebula_execute (get_nebula_gather space_name w attrs) = .error e) ∨
      (∃ r ∈ returnedRows nebula_execute (get_nebula_gather space_name w attrs),
        r.typesOk attrs.length = false)) :
    (∃ w ∈ spec_windows start_nodes, ∃ e,
        nebula_execute (get_nebula_gather space_name w attrs) = .error e ∧
        (c.gather_attributes nebula_execute space_name start_nodes attrs).result
          = .error e) ∨
      (c.gather_attributes nebula_execute space_name start_nodes attrs).result
        = .error (.check "internel error: 1") ∨
      (c.gather_attributes nebula_execute space_name start_nodes attrs).result
        = .error (.check "internel error: 2") := by
  obtain ⟨before, w, after, hw, hbefore, hpw⟩ := split_at_first_window _ _ hbad
  have hmem : ∀ x ∈ before, x ∈ spec_windows start_nodes := fun x hx => by
    rw [hw]
    exact List.mem_append_left _ hx
  have hwmem : w ∈ spec_windows start_nodes := by
    rw [hw]
    exact List.mem_append_right _ (List.mem_cons_self _ _)
  have hok : ∀ x ∈ before,
      ∃ rs, nebula_execute (get_nebula_gather space_name x attrs) = .ok rs := by
    intro x hx
    cases hx2 : nebula_execute (get_nebula_gather space_name x attrs) with
    | error e => exact absurd (Or.inl ⟨e, hx2⟩) (hbefore x hx)
    | ok rs => exact ⟨rs, rfl⟩
  have hpre := forall2_returnedRows nebula_execute space_name attrs before hok
  have htyped : ∀ r ∈ (before.map fun w => returnedRows nebula_execute
      (get_nebula_gather space_name w attrs)).flatten,
      attrs.length + 1 ≤ r.values.length ∧ r.typesOk attrs.length = true := by
    intro r hr
    rw [flatten_map_returnedRows, List.mem_flatMap] at hr
    obtain ⟨x, hx, hrx⟩ := hr
    refine ⟨hshape x (hmem x hx) r hrx, ?_⟩
    cases hk : r.typesOk attrs.length with
    | true => rfl
    | false => exact absurd (Or.inr ⟨r, hrx, hk⟩) (hbefore x hx)
  have hlen : (before.map fun w => returnedRows nebula_execute
        (get_nebula_gather space_name w attrs)).flatten.length
      + (returnedRows nebula_execute (get_nebula_gather space_name w attrs)).length
      ≤ start_nodes.length := by
    rw [flatten_map_returnedRows]
    rw [hw] at hcap
    simp only [List.flatMap_append, List.flatMap_cons, List.length_append] at hcap
    omega
  obtain ⟨hstopE, hstopR⟩ := gather_attributes_stop c nebula_execute space_name start_nodes
    attrs before _ w after hw hpre htyped
  rcases hpw with ⟨e, he⟩ | ⟨r, hr, hk⟩
  · exact Or.inl ⟨w, hwmem, e, he, (hstopE e he (by omega)).2⟩
  · cases hx : nebula_execute (get_nebula_gather space_name w attrs) with
    | error e =>
      simp only [returnedRows, hx, List.not_mem_nil] at hr
    | ok rs =>
      have hrr : returnedRows nebula_execute (get_nebula_gather space_name w attrs) = rs := by
        simp only [returnedRows, hx]
      rw [hrr] at hr hlen
      have hsh : ∀ r ∈ rs, attrs.length + 1 ≤ r.values.length := by
        intro r2 hr2
        have := hshape w hwmem r2
        rw [hrr] at this
        exact this hr2
      exact Or.inr (hstopR rs hx hsh hlen ⟨r, hr, hk⟩).2

/-! ### Reading the ids back from a bulk-fetch text -/

theorem digitChar_not_sep : ∀ m < 10, Nat.digitChar m ≠ ',' ∧ Nat.digitChar m ≠ '-' := by
  decide

theorem digitChar_value : ∀ m < 10, (Nat.digitChar m).toNat - 48 = m := by
  decide

theorem natRepr_digit (n : Nat) (c : Char) (h : c ∈ (toString n).data) :
    ∃ m < 10, c = Nat.digitChar m := by
  have h2 : c ∈ Nat.toDigitsCore 10 (n + 1) n [] := h
  rcases toDigitsCore_chars _ _ _ _ h2 with h3 | h3
  · simp at h3
  · exact h3

/-- The value of a run of decimal digits. -/
theorem decode_toDigitsCore (fuel n : Nat) (ds : List Char) (h : n < fuel) :
    List.foldl (fun acc c => acc * 10 + (c.toNat - 48)) 0 (Nat.toDigitsCore 10 fuel n ds)
      = List.foldl (fun acc c => acc * 10 + (c.toNat - 48)) n ds := by
  induction fuel generalizing n ds with
  | zero => omega
  | succ fuel ih =>
    simp only [Nat.toDigitsCore]
    have hv := digitChar_value (n % 10) (Nat.mod_lt _ (by decide))
    split
    · rename_i h0
      simp only [List.foldl_cons, Nat.zero_mul, Nat.zero_add, hv]
      have : n % 10 = n := by omega
      rw [this]
    · rename_i h0
      rw [ih (n / 10) _ (by omega)]
      simp only [List.foldl_cons, hv]
      have : n / 10 * 10 + n % 10 = n := by omega
      rw [this]

theorem natRepr_injective (a b : Nat) (h : toString a = toString b) : a = b := by
  have ha := decode_toDigitsCore (a + 1) a [] (by omega)
  have hb := decode_toDigitsCore (b + 1) b [] (by omega)
  have hd : Nat.toDigitsCore 10 (a + 1) a [] = Nat.toDigitsCore 10 (b + 1) b [] :=
    congrArg String.data h
  rw [hd, hb] at ha
  simpa using ha.symm

theorem natRepr_ne_nil (n : Nat) : (toString n).data ≠ [] := by
  intro h
  have h0 : toString n = toString 0 → n = 0 := natRepr_injective n 0
  have hlen : ∀ (fuel m : Nat) (ds : List Char),
      ds.length ≤ (Nat.toDigitsCore 10 fuel m ds).length := by
    intro fuel
    induction fuel with
    | zero => intro m ds; simp [Nat.toDigitsCore]
    | succ fuel ih =>
      intro m ds
      simp only [Nat.toDigitsCore]
      split
      · simp
      · exact Nat.le_trans (by simp) (ih _ _)
  have h2 : (Nat.toDigitsCore 10 (n + 1) n []).length = 0 := by
    have : (toString n).data = Nat.toDigitsCore 10 (n + 1) n [] := rfl
    rw [← this, h]
    rfl
  simp only [Nat.toDigitsCore] at h2
  split at h2
  · simp at h2
  · have := hlen n (n / 10) [Nat.digitChar (n % 10)]
    simp only [List.length_cons, List.length_nil] at this
    omega

theorem intRepr_no_comma (i : Int) : ',' ∉ (toString i).data := by
  intro h
  cases i with
  | ofNat n =>
    obtain ⟨m, hm, hc⟩ := natRepr_digit n _ h
    exact (digitChar_not_sep m hm).1 hc.symm
  | negSucc n =>
    have h2 : ',' ∈ ("-" ++ toString (n + 1)).data := h
    rw [String.data_append] at h2
    rcases List.mem_append.mp h2 with h3 | h3
    · exact absurd h3 (by decide)
    · obtain ⟨m, hm, hc⟩ := natRepr_digit _ _ h3
      exact (digitChar_not_sep m hm).1 hc.symm

theorem intRepr_ne_nil (i : Int) : (toString i).data ≠ [] := by
  cases i with
  | ofNat n => exact natRepr_ne_nil n
  | negSucc n =>
    intro h
    have h2 : ("-" ++ toString (n + 1)).data = [] := h
    rw [String.data_append] at h2
    simp at h2

theorem intRepr_injective (a b : Int) (h : toString a = toString b) : a = b := by
  have hd := congrArg String.data h
  cases a with
  | ofNat n =>
    cases b with
    | ofNat m =>
      have : n = m := natRepr_injective n m h
      rw [this]
    | negSucc m =>
      exfalso
      have h2 : (toString n).data = ("-" ++ toString (m + 1)).data := hd
      have hmem : '-' ∈ (toString n).data := by
        rw [h2, String.data_append]
        exact List.mem_append_left _ (by decide)
      obtain ⟨k, hk, hc⟩ := natRepr_digit n _ hmem
      exact (digitChar_not_sep k hk).2 hc.symm
  | negSucc n =>
    cases b with
    | ofNat m =>
      exfalso
      have h2 : ("-" ++ toString (n + 1)).data = (toString m).data := hd
      have hmem : '-' ∈ (toString m).data := by
        rw [← h2, String.data_append]
        exact List.mem_append_left _ (by decide)
      obtain ⟨k, hk, hc⟩ := natRepr_digit m _ hmem
      exact (digitChar_not_sep k hk).2 hc.symm
    | negSucc m =>
      have h2 : ("-" ++ toString (n + 1)).data = ("-" ++ toString (m + 1)).data := hd
      rw [String.data_append, String.data_append] at h2
      have h3 := List.append_cancel_left h2
      have h4 : n + 1 = m + 1 := natRepr_injective _ _ (String.ext h3)
      have : n = m := by omega
      rw [this]

/-- A text is split at its first comma in one way only. -/
theorem split_at_comma (x y a b : List Char) (hx : ',' ∉ x) (hy : ',' ∉ y)
    (h : x ++ ',' :: a = y ++ ',' :: b) : x = y ∧ a = b := by
  induction x generalizing y with
  | nil =>
    cases y with
    | nil => exact ⟨rfl, by simpa using h⟩
    | cons c y =>
      simp only [List.nil_append, List.cons_append, List.cons.injEq] at h
      exact absurd (h.1 ▸ List.mem_cons_self _ _) hy
  | cons c x ih =>
    cases y with
    | nil =>
      simp only [List.nil_append, List.cons_append, List.cons.injEq] at h
      exact absurd (h.1 ▸ List.mem_cons_self _ _) hx
    | cons d y =>
      simp only [List.cons_append, List.cons.injEq] at h
      obtain ⟨hcd, hrest⟩ := h
      obtain ⟨h1, h2⟩ := ih y (fun hm => hx (List.mem_cons_of_mem _ hm))
        (fun hm => hy (List.mem_cons_of_mem _ hm)) hrest
      exact ⟨by rw [hcd, h1], h2⟩

theorem intercalate_go_data (acc : String) (l : List String) :
    (String.intercalate.go acc "," l).data
      = acc.data ++ l.flatMap (fun s => ',' :: s.data) := by
  induction l generalizing acc with
  | nil => simp [String.intercalate.go]
  | cons s l ih =>
    simp only [String.intercalate.go, ih, String.data_append, List.flatMap_cons]
    simp

theorem joined_tail_injective (x y : Int) (xs ys : List Int)
    (h : (toString x).data ++ (xs.map toString).flatMap (fun s => ',' :: s.data)
      = (toString y).data ++ (ys.map toString).flatMap (fun s => ',' :: s.data)) :
    x = y ∧ xs = ys := by
  induction xs generalizing x y ys with
  | nil =>
    cases ys with
    | nil =>
      simp only [List.map_nil, List.flatMap_nil, List.append_nil] at h
      exact ⟨intRepr_injective x y (String.ext h), rfl⟩
    | cons b ys =>
      exfalso
      simp only [List.map_nil, List.flatMap_nil, List.append_nil, List.map_cons,
        List.flatMap_cons, List.cons_append] at h
      exact intRepr_no_comma x (h ▸ List.mem_append_right _ (List.mem_cons_self _ _))
  | cons a xs ih =>
    cases ys with
    | nil =>
      exfalso
      simp only [List.map_nil, List.flatMap_nil, List.append_nil, List.map_cons,
        List.flatMap_cons, List.cons_append] at h
      exact intRepr_no_comma y (h ▸ List.mem_append_right _ (List.mem_cons_self _ _))
    | cons b ys =>
      simp only [List.map_cons, List.flatMap_cons, List.cons_append] at h
      obtain ⟨h1, h2⟩ := split_at_comma _ _ _ _ (intRepr_no_comma x) (intRepr_no_comma y) h
      obtain ⟨h3, h4⟩ := ih a b ys h2
      exact ⟨intRepr_injective x y (String.ext h1), by rw [h3, h4]⟩

theorem intercalate_injective (ids ids2 : List Int)
    (h : String.intercalate "," (ids.map toString)
      = String.intercalate "," (ids2.map toString)) : ids = ids2 := by
  have hd := congrArg String.data h
  cases ids with
  | nil =>
    cases ids2 with
    | nil => rfl
    | cons b ys =>
      exfalso
      simp only [List.map_nil, List.map_cons, String.intercalate, intercalate_go_data] at hd
      have hd2 : (toString b).data
          ++ (List.map toString ys).flatMap (fun s => ',' :: s.data) = [] := hd.symm
      exact intRepr_ne_nil b (List.append_eq_nil.mp hd2).1
  | cons a xs =>
    cases ids2 with
    | nil =>
      exfalso
      simp only [List.map_nil, List.map_cons, String.intercalate, intercalate_go_data] at hd
      have hd2 : (toString a).data
          ++ (List.map toString xs).flatMap (fun s => ',' :: s.data) = [] := hd
      exact intRepr_ne_nil a (List.append_eq_nil.mp hd2).1
    | cons b ys =>
      simp only [List.map_cons, String.intercalate, intercalate_go_data] at hd
      obtain ⟨h1, h2⟩ := joined_tail_injective a b xs ys hd
      rw [h1, h2]

/-- A bulk-fetch text lists one id list only. -/
theorem spec_fetch_injective (space : String) (attrs : List String) (ids ids2 : List Int)
    (h : spec_fetch space ids attrs = spec_fetch space ids2 attrs) : ids = ids2 := by
  apply intercalate_injective
  have hd := congrArg String.data h
  simp only [spec_fetch, String.data_append] at hd
  simp only [List.append_assoc] at hd
  have h1 := List.append_cancel_left (List.append_cancel_left (List.append_cancel_left hd))
  simp only [← List.append_assoc] at h1
  have h2 := List.append_cancel_right (List.append_cancel_right (List.append_cancel_right h1))
  exact String.ext h2

theorem get_nebula_gather_eq_fetch (space : String) (window : List Int)
    (attrs : List String) :
    get_nebula_gather space window attrs = spec_fetch space (spec_dedup window) attrs :=
  get_nebula_gather_eq_spec space window attrs

theorem spec_dedup_card (w : List Int) : (spec_dedup w).length = w.toFinset.card := by
  rw [← List.toFinset_card_of_nodup (nodup_spec_dedup w)]
  congr 1
  ext u
  simp [mem_spec_dedup]

/-! ## Theorems -/

/-- C1: for space "social", start vertices 1,2 and the single forward layer over "follow"
without cap and without time bounds, `get_nebula_query` returns exactly the query text of
the end-to-end example, ending in a semicolon and one space. -/
theorem c1_example_query :
    get_nebula_query "social" [1, 2] [⟨"follow", -1, (-1, -1), 0⟩] =
      "USE social; $v0 = GO FROM 1,2 OVER follow YIELD DISTINCT id($^) as src, id($$) as dst, properties(edge).time_stamp as `timestamp`; YIELD $v0.src as src, $v0.dst as dst, 0 as DIST, $v0.`timestamp` as `timestamp`; " := by
  rfl

/-- C2: for every space, every non-empty start-vertex list and every non-empty layer list,
the text `get_nebula_query` returns is "USE " + space + "; ", then the layer statements in
index order, then the final statement last; layer statement `k` has the shape of the
specification, its source being the start vertices in decimal joined by "," in input order
(duplicates kept) for `k = 0` and `$v(k-1).dst` for `k ≥ 1`. -/
theorem c2_query_refines_spec (space : String) (start_vertices : List Int)
    (layers : List LayerParam) (_hs : start_vertices ≠ []) (_hl : layers ≠ []) :
    get_nebula_query space start_vertices layers = spec_query space start_vertices layers := by
  rw [get_nebula_query_eq]
  unfold spec_query
  simp only [layerStmt_eq_spec]

set_option maxRecDepth 8000 in
/-- Witness of C2: the two-layer request whose layer 1 has the time range (100, -1); its
layer-1 statement sources from `$v0.dst` and filters on `>= 100`. -/
theorem c2_query_refines_spec_witness :
    ([1, 2] : List Int) ≠ [] ∧
    ([⟨"follow", -1, (-1, -1), 0⟩, ⟨"follow", -1, (100, -1), 0⟩] : List LayerParam) ≠ [] ∧
    spec_query "social" [1, 2] [⟨"follow", -1, (-1, -1), 0⟩, ⟨"follow", -1, (100, -1), 0⟩] =
      "USE social; $v0 = GO FROM 1,2 OVER follow YIELD DISTINCT id($^) as src, id($$) as dst, properties(edge).time_stamp as `timestamp`; $v1 = GO FROM $v0.dst OVER follow WHERE properties(edge).time_stamp >= 100 YIELD DISTINCT id($^) as src, id($$) as dst, properties(edge).time_stamp as `timestamp`; YIELD $v0.src as src, $v0.dst as dst, 0 as DIST, $v0.`timestamp` as `timestamp` UNION YIELD $v1.src as src, $v1.dst as dst, 1 as DIST, $v1.`timestamp` as `timestamp`; " ∧
    get_nebula_query "social" [1, 2]
        [⟨"follow", -1, (-1, -1), 0⟩, ⟨"follow", -1, (100, -1), 0⟩] =
      spec_query "social" [1, 2] [⟨"follow", -1, (-1, -1), 0⟩, ⟨"follow", -1, (100, -1), 0⟩] :=
  ⟨List.cons_ne_nil _ _, List.cons_ne_nil _ _, by rfl,
    c2_query_refines_spec "social" [1, 2] _ (List.cons_ne_nil _ _) (List.cons_ne_nil _ _)⟩

/-- C3: in each of the four cases of the time range (lo, hi), namely (-1, -1), (-1, hi ≥ 0),
(lo ≥ 0, -1) and (lo ≥ 0, hi ≥ 0), the layer statement carries exactly one clause shape
between the direction modifier and the projection: no clause, the upper bound only, the
lower bound only, or both joined by AND, with lo and hi in decimal; lo ≤ hi is not
required. -/
theorem c3_time_filter_cases (start_nodes : List Int) (k : Nat) (p : LayerParam)
    (lo hi : Int) (h : p.time_range = (lo, hi)) :
    (lo = -1 ∧ hi = -1 →
      layerStmt start_nodes k p =
        putSource "" start_nodes k p ++ putDirection "" p.direction
          ++ yieldDistinct ++ putLimit "" p.limit ++ "; ") ∧
    (lo = -1 ∧ 0 ≤ hi →
      layerStmt start_nodes k p =
        putSource "" start_nodes k p ++ putDirection "" p.direction
          ++ (" WHERE properties(edge).time_stamp <= " ++ toString hi)
          ++ yieldDistinct ++ putLimit "" p.limit ++ "; ") ∧
    (0 ≤ lo ∧ hi = -1 →
      layerStmt start_nodes k p =
        putSource "" start_nodes k p ++ putDirection "" p.direction
          ++ (" WHERE properties(edge).time_stamp >= " ++ toString lo)
          ++ yieldDistinct ++ putLimit "" p.limit ++ "; ") ∧
    (0 ≤ lo ∧ 0 ≤ hi →
      layerStmt start_nodes k p =
        putSource "" start_nodes k p ++ putDirection "" p.direction
          ++ (" WHERE properties(edge).time_stamp >= " ++ toString lo
                ++ " AND properties(edge).time_stamp <= " ++ toString hi)
          ++ yieldDistinct ++ putLimit "" p.limit ++ "; ") := by
  rw [layerStmt_parts, h]
  refine ⟨?_, ?_, ?_, ?_⟩
  · rintro ⟨hlo, hhi⟩
    rw [putTimeFilter_none lo hi (by omega) (by omega), String.append_empty]
  · rintro ⟨hlo, hhi⟩
    rw [putTimeFilter_upper lo hi (by omega) hhi]
  · rintro ⟨hlo, hhi⟩
    rw [putTimeFilter_lower lo hi hlo (by omega)]
  · rintro ⟨hlo, hhi⟩
    rw [putTimeFilter_both lo hi hlo hhi]

/-- Witness of C3: layer 1 with the time ranges (-1, -1), (-1, 7), (100, -1) and (200, 100);
the last has its lower bound above its upper bound and carries both bounds all the same. -/
theorem c3_time_filter_cases_witness :
    layerStmt [1, 2] 1 ⟨"follow", -1, (-1, -1), 0⟩ =
      "$v1 = GO FROM $v0.dst OVER follow YIELD DISTINCT id($^) as src, id($$) as dst, properties(edge).time_stamp as `timestamp`; " ∧
    layerStmt [1, 2] 1 ⟨"follow", -1, (-1, 7), 0⟩ =
      "$v1 = GO FROM $v0.dst OVER follow WHERE properties(edge).time_stamp <= 7 YIELD DISTINCT id($^) as src, id($$) as dst, properties(edge).time_stamp as `timestamp`; " ∧
    layerStmt [1, 2] 1 ⟨"follow", -1, (100, -1), 0⟩ =
      "$v1 = GO FROM $v0.dst OVER follow WHERE properties(edge).time_stamp >= 100 YIELD DISTINCT id($^) as src, id($$) as dst, properties(edge).time_stamp as `timestamp`; " ∧
    layerStmt [1, 2] 1 ⟨"follow", -1, (200, 100), 0⟩ =
      "$v1 = GO FROM $v0.dst OVER follow WHERE properties(edge).time_stamp >= 200 AND properties(edge).time_stamp <= 100 YIELD DISTINCT id($^) as src, id($$) as dst, properties(edge).time_stamp as `timestamp`; " :=
  ⟨((c3_time_filter_cases [1, 2] 1 ⟨"follow", -1, (-1, -1), 0⟩ (-1) (-1) rfl).1
      ⟨rfl, rfl⟩).trans (by rfl),
    ((c3_time_filter_cases [1, 2] 1 ⟨"follow", -1, (-1, 7), 0⟩ (-1) 7 rfl).2.1
      ⟨rfl, by decide⟩).trans (by rfl),
    ((c3_time_filter_cases [1, 2] 1 ⟨"follow", -1, (100, -1), 0⟩ 100 (-1) rfl).2.2.1
      ⟨by decide, rfl⟩).trans (by rfl),
    ((c3_time_filter_cases [1, 2] 1 ⟨"follow", -1, (200, 100), 0⟩ 200 100 rfl).2.2.2
      ⟨by decide, by decide⟩).trans (by rfl)⟩

/-- Counterexample to C4 as stated: with the time range (-2, -1) the lower bound -2 is not
-1, yet the layer statement does not contain the condition
"properties(edge).time_stamp >= -2". -/
theorem c4_minus_two_is_dropped :
    ¬ (containsText (layerStmt [1, 2] 0 ⟨"follow", -1, (-2, -1), 0⟩)
          ("properties(edge).time_stamp >= " ++ toString (-2 : Int)) ↔ (-2 : Int) ≠ -1) := by
  intro h
  have hc := h.mpr (by decide)
  have he : layerStmt [1, 2] 0 ⟨"follow", -1, (-2, -1), 0⟩ =
      "$v0 = GO FROM 1,2 OVER follow YIELD DISTINCT id($^) as src, id($$) as dst, properties(edge).time_stamp as `timestamp`; " := by
    rfl
  rw [he] at hc
  exact not_containsText_of_char _ _ '>' (lowerCond_has_gt _) (by decide) hc

/-- C4, amended: every negative time-range value means "unset", not -1 alone. For all
integers lo and hi, the time filter written between the direction modifier and the
projection of the layer statement contains the lower-bound condition
"properties(edge).time_stamp >= lo" if and only if lo ≥ 0, and the upper-bound condition
"properties(edge).time_stamp <= hi" if and only if hi ≥ 0. -/
theorem c4_negative_bound_is_unset (start_nodes : List Int) (k : Nat) (p : LayerParam)
    (lo hi : Int) (h : p.time_range = (lo, hi)) :
    layerStmt start_nodes k p =
        putSource "" start_nodes k p ++ putDirection "" p.direction
          ++ putTimeFilter "" (lo, hi) ++ yieldDistinct ++ putLimit "" p.limit ++ "; " ∧
    (containsText (putTimeFilter "" (lo, hi))
        ("properties(edge).time_stamp >= " ++ toString lo) ↔ 0 ≤ lo) ∧
    (containsText (putTimeFilter "" (lo, hi))
        ("properties(edge).time_stamp <= " ++ toString hi) ↔ 0 ≤ hi) := by
  refine ⟨by rw [layerStmt_parts, h], ?_, ?_⟩
  · rcases lt_or_le lo 0 with hlo | hlo <;> rcases lt_or_le hi 0 with hhi | hhi
    · rw [putTimeFilter_none lo hi hlo hhi]
      exact ⟨fun hc => absurd hc
        (not_containsText_of_char _ _ '>' (lowerCond_has_gt lo) (by decide)), fun h0 => by omega⟩
    · rw [putTimeFilter_upper lo hi hlo hhi]
      exact ⟨fun hc => absurd hc
        (not_containsText_of_char _ _ '>' (lowerCond_has_gt lo) (upperClause_no_gt hi)),
        fun h0 => by omega⟩
    · rw [putTimeFilter_lower lo hi hlo hhi]
      have hs : (" WHERE properties(edge).time_stamp >= " : String) =
          " WHERE " ++ "properties(edge).time_stamp >= " := rfl
      rw [hs, String.append_assoc]
      exact ⟨fun _ => hlo, fun _ => containsText_end _ _⟩
    · rw [putTimeFilter_both lo hi hlo hhi]
      have hs : (" WHERE properties(edge).time_stamp >= " : String) =
          " WHERE " ++ "properties(edge).time_stamp >= " := rfl
      rw [hs]
      simp only [String.append_assoc]
      rw [← String.append_assoc "properties(edge).time_stamp >= ", ← String.append_assoc " WHERE "]
      exact ⟨fun _ => hlo, fun _ => containsText_mid _ _ _⟩
  · rcases lt_or_le lo 0 with hlo | hlo <;> rcases lt_or_le hi 0 with hhi | hhi
    · rw [putTimeFilter_none lo hi hlo hhi]
      exact ⟨fun hc => absurd hc
        (not_containsText_of_char _ _ '<' (upperCond_has_lt hi) (by decide)), fun h0 => by omega⟩
    · rw [putTimeFilter_upper lo hi hlo hhi]
      have hs : (" WHERE properties(edge).time_stamp <= " : String) =
          " WHERE " ++ "properties(edge).time_stamp <= " := rfl
      rw [hs, String.append_assoc]
      exact ⟨fun _ => hhi, fun _ => containsText_end _ _⟩
    · rw [putTimeFilter_lower lo hi hlo hhi]
      exact ⟨fun hc => absurd hc
        (not_containsText_of_char _ _ '<' (upperCond_has_lt hi) (lowerClause_no_lt lo)),
        fun h0 => by omega⟩
    · rw [putTimeFilter_both lo hi hlo hhi]
      have hs : (" AND properties(edge).time_stamp <= " : String) =
          " AND " ++ "properties(edge).time_stamp <= " := rfl
      have hx : " WHERE properties(edge).time_stamp >= " ++ toString lo
            ++ " AND properties(edge).time_stamp <= " ++ toString hi =
          (" WHERE properties(edge).time_stamp >= " ++ toString lo ++ " AND ")
            ++ ("properties(edge).time_stamp <= " ++ toString hi) := by
        rw [hs]
        simp only [String.append_assoc]
      rw [hx]
      exact ⟨fun _ => hhi, fun _ => containsText_end _ _⟩

/-- Witness of C4 amended: for the time range (-2, -1) the filter does not contain the
lower-bound condition. -/
theorem c4_negative_bound_is_unset_witness :
    ¬ containsText (putTimeFilter "" (-2, -1))
        ("properties(edge).time_stamp >= " ++ toString (-2 : Int)) :=
  fun hc => absurd
    ((c4_negative_bound_is_unset [1, 2] 0 ⟨"follow", -1, (-2, -1), 0⟩ (-2) (-1) rfl).2.1.mp hc)
    (by decide)

/-- C5: the direction modifier of a layer statement stands directly after the edge type; it
is nothing for Forward (0), " REVERSELY" for Reverse (1) and " BIDIRECT" for
Bidirectional (2), and every layer statement has one such slot, holding one of the three. -/
theorem c5_direction_modifier (start_nodes : List Int) (k : Nat) (p : LayerParam) :
    layerStmt start_nodes k p =
        "$v" ++ toString k ++ " = GO FROM " ++ spec_source start_nodes k ++ " OVER "
          ++ p.edge_type ++ putDirection "" p.direction ++ putTimeFilter "" p.time_range
          ++ yieldDistinct ++ putLimit "" p.limit ++ "; " ∧
    (p.direction = 0 → putDirection "" p.direction = "") ∧
    (p.direction = 1 → putDirection "" p.direction = " REVERSELY") ∧
    (p.direction = 2 → putDirection "" p.direction = " BIDIRECT") ∧
    (putDirection "" p.direction = "" ∨ putDirection "" p.direction = " REVERSELY"
      ∨ putDirection "" p.direction = " BIDIRECT") := by
  refine ⟨by rw [layerStmt_parts, putSource_eq_spec], ?_, ?_, ?_, ?_⟩
  · intro h
    rw [h]
    rfl
  · intro h
    rw [h]
    rfl
  · intro h
    rw [h]
    rfl
  · unfold putDirection
    split_ifs <;> simp

/-- Witness of C5: the modifiers of a Forward, a Reverse and a Bidirectional layer, and the
statement of the Reverse layer with " REVERSELY" after the edge type. -/
theorem c5_direction_modifier_witness :
    putDirection "" (0 : Int) = "" ∧
    putDirection "" (1 : Int) = " REVERSELY" ∧
    putDirection "" (2 : Int) = " BIDIRECT" ∧
    layerStmt [1, 2] 0 ⟨"follow", -1, (-1, -1), 1⟩ =
      "$v0 = GO FROM 1,2 OVER follow REVERSELY YIELD DISTINCT id($^) as src, id($$) as dst, properties(edge).time_stamp as `timestamp`; " :=
  ⟨(c5_direction_modifier [1, 2] 0 ⟨"follow", -1, (-1, -1), 0⟩).2.1 rfl,
    (c5_direction_modifier [1, 2] 0 ⟨"follow", -1, (-1, -1), 1⟩).2.2.1 rfl,
    (c5_direction_modifier [1, 2] 0 ⟨"follow", -1, (-1, -1), 2⟩).2.2.2.1 rfl,
    (c5_direction_modifier [1, 2] 0 ⟨"follow", -1, (-1, -1), 1⟩).1.trans (by rfl)⟩

/-- Counterexample to C6 as stated: the direction 3 is none of Forward (0), Reverse (1),
Bidirectional (2), and `get_nebula_query` produces a query text for it, the text of the
Forward request. -/
theorem c6_direction_three_is_accepted :
    (3 : Int) ≠ 0 ∧ (3 : Int) ≠ 1 ∧ (3 : Int) ≠ 2 ∧
    get_nebula_query "social" [1, 2] [⟨"follow", -1, (-1, -1), 3⟩] =
      "USE social; $v0 = GO FROM 1,2 OVER follow YIELD DISTINCT id($^) as src, id($$) as dst, properties(edge).time_stamp as `timestamp`; YIELD $v0.src as src, $v0.dst as dst, 0 as DIST, $v0.`timestamp` as `timestamp`; " :=
  ⟨by decide, by decide, by decide, by rfl⟩

/-- C6, amended: the direction mapping has a default case. A layer whose direction is any
value other than Reverse (1) and Bidirectional (2) is accepted, and the query text is the
one produced when that layer is Forward (0): no modifier is written for it. -/
theorem c6_other_direction_as_forward (space : String) (start_nodes : List Int)
    (before after : List LayerParam) (edge_type : String) (limit : Int)
    (time_range : Int × Int) (d : Int) (h1 : d ≠ 1) (h2 : d ≠ 2) :
    putDirection "" d = "" ∧
    get_nebula_query space start_nodes (before ++ ⟨edge_type, limit, time_range, d⟩ :: after) =
      get_nebula_query space start_nodes
        (before ++ ⟨edge_type, limit, time_range, 0⟩ :: after) := by
  refine ⟨putDirection_other d h1 h2, ?_⟩
  have hb : ∀ k, layerStmt start_nodes k ⟨edge_type, limit, time_range, d⟩ =
      layerStmt start_nodes k ⟨edge_type, limit, time_range, 0⟩ := by
    intro k
    rw [layerStmt_eq_spec, layerStmt_eq_spec]
    unfold spec_layerStmt
    simp only
    rw [putDirection_other d h1 h2, putDirection_other 0 (by decide) (by decide)]
  unfold get_nebula_query
  simp only [List.length_append, List.length_cons]
  rw [layerLoop_congr start_nodes _ _ hb]

/-- Witness of C6 amended: direction 3 gives the text of the Forward request. -/
theorem c6_other_direction_as_forward_witness :
    get_nebula_query "social" [1, 2] ([] ++ ⟨"follow", -1, (-1, -1), 3⟩ :: []) =
      get_nebula_query "social" [1, 2] ([] ++ ⟨"follow", -1, (-1, -1), 0⟩ :: []) :=
  (c6_other_direction_as_forward "social" [1, 2] [] [] "follow" (-1) (-1, -1) 3
    (by decide) (by decide)).2

/-- C7: the cap clause " SAMPLE [" + limit + "]", with the limit in decimal, stands between
the projection and the terminating "; " of a layer statement if and only if limit ≥ 0; a
negative limit writes no cap clause, the limit 0 writes " SAMPLE [0]", and the statement
for the limit 0 differs from the statement for any negative limit. -/
theorem c7_sampling_cap (start_nodes : List Int) (k : Nat) (p : LayerParam) :
    layerStmt start_nodes k p =
        putSource "" start_nodes k p ++ putDirection "" p.direction
          ++ putTimeFilter "" p.time_range ++ yieldDistinct ++ putLimit "" p.limit ++ "; " ∧
    (putLimit "" p.limit = " SAMPLE [" ++ toString p.limit ++ "]" ↔ 0 ≤ p.limit) ∧
    (p.limit < 0 → putLimit "" p.limit = "") ∧
    putLimit "" 0 = " SAMPLE [0]" ∧
    (∀ n : Int, n < 0 →
      layerStmt start_nodes k ⟨p.edge_type, 0, p.time_range, p.direction⟩ ≠
        layerStmt start_nodes k ⟨p.edge_type, n, p.time_range, p.direction⟩) := by
  refine ⟨layerStmt_parts _ _ _, ⟨?_, putLimit_cap _⟩, putLimit_none _, rfl, ?_⟩
  · intro h
    by_contra hneg
    rw [putLimit_none _ (by omega)] at h
    have hl := congrArg String.length h
    have hpos := cap_length p.limit
    rw [← hl] at hpos
    exact absurd hpos (by decide)
  · intro n hn heq
    rw [layerStmt_parts, layerStmt_parts] at heq
    simp only at heq
    rw [putLimit_none n hn, putLimit_cap 0 (le_refl 0)] at heq
    have hl := congrArg String.length heq
    have hpos := cap_length 0
    have hp : putSource "" start_nodes k ⟨p.edge_type, 0, p.time_range, p.direction⟩ =
        putSource "" start_nodes k ⟨p.edge_type, n, p.time_range, p.direction⟩ := rfl
    rw [hp] at hl
    simp only [String.length_append] at hl hpos
    have he : ("" : String).length = 0 := rfl
    omega

/-- Witness of C7: a layer with the limit 0 ends in " SAMPLE [0]; ", and a layer with the
limit -1 has no cap clause. -/
theorem c7_sampling_cap_witness :
    putLimit "" (-1 : Int) = "" ∧
    layerStmt [1, 2] 0 ⟨"follow", 0, (-1, -1), 0⟩ ≠ layerStmt [1, 2] 0 ⟨"follow", -1, (-1, -1), 0⟩ ∧
    layerStmt [1, 2] 0 ⟨"follow", 0, (-1, -1), 0⟩ =
      "$v0 = GO FROM 1,2 OVER follow YIELD DISTINCT id($^) as src, id($$) as dst, properties(edge).time_stamp as `timestamp` SAMPLE [0]; " :=
  ⟨(c7_sampling_cap [1, 2] 0 ⟨"follow", -1, (-1, -1), 0⟩).2.2.1 (by decide),
    (c7_sampling_cap [1, 2] 0 ⟨"follow", -1, (-1, -1), 0⟩).2.2.2.2 (-1) (by decide),
    (c7_sampling_cap [1, 2] 0 ⟨"follow", 0, (-1, -1), 0⟩).1.trans (by rfl)⟩

/-- C8: for a layer list of length N ≥ 1 the statement written last by `get_nebula_query`
has exactly N branches, in layer order; branch k is the projection of `$vk` with the
literal k as DIST, after "YIELD" for k = 0 and after " UNION YIELD" for k ≥ 1, and the
statement ends with "; ". So the DIST literals are 0, 1, ..., N-1, and the final statement
of a single-layer query contains no "UNION". -/
theorem c8_final_statement (space : String) (start_nodes : List Int)
    (layers : List LayerParam) (_hl : layers ≠ []) :
    get_nebula_query space start_nodes layers =
        "USE " ++ space ++ "; "
          ++ String.join (layers.enum.map fun kp => layerStmt start_nodes kp.1 kp.2)
          ++ finalStmt layers.length ∧
    finalStmt layers.length =
        String.join ((List.range layers.length).map spec_branch) ++ "; " ∧
    (layers.length = 1 →
      finalStmt layers.length =
          "YIELD $v0.src as src, $v0.dst as dst, 0 as DIST, $v0.`timestamp` as `timestamp`; " ∧
      ¬ containsText (finalStmt layers.length) "UNION") := by
  refine ⟨get_nebula_query_eq _ _ _, finalStmt_eq_join _, ?_⟩
  intro h1
  rw [h1]
  have he : finalStmt 1 =
      "YIELD $v0.src as src, $v0.dst as dst, 0 as DIST, $v0.`timestamp` as `timestamp`; " := by
    rfl
  rw [he]
  exact ⟨rfl, not_containsText_of_char _ _ 'U' (by decide) (by decide)⟩

/-- Witness of C8: the final statement of a two-layer query has the branches 0 and 1. -/
theorem c8_final_statement_witness :
    finalStmt ([⟨"follow", -1, (-1, -1), 0⟩, ⟨"follow", -1, (100, -1), 0⟩] : List LayerParam).length =
      "YIELD $v0.src as src, $v0.dst as dst, 0 as DIST, $v0.`timestamp` as `timestamp` UNION YIELD $v1.src as src, $v1.dst as dst, 1 as DIST, $v1.`timestamp` as `timestamp`; " ∧
    ¬ containsText (finalStmt ([⟨"follow", -1, (-1, -1), 0⟩] : List LayerParam).length) "UNION" :=
  ⟨(c8_final_statement "social" [1, 2]
      [⟨"follow", -1, (-1, -1), 0⟩, ⟨"follow", -1, (100, -1), 0⟩]
      (List.cons_ne_nil _ _)).2.1.trans (by rfl),
    ((c8_final_statement "social" [1, 2] [⟨"follow", -1, (-1, -1), 0⟩]
      (List.cons_ne_nil _ _)).2.2 rfl).2⟩

/-- C9: for every sequence of M result rows whose src, dst, distance and timestamp cells
are all integers (M = 0 included), the materializing part of `sample_subgraph` returns an
array of shape [4, M] in which, for every row k, entry [0,k] is the row's src, [1,k] its
dst, [2,k] its distance cell as it came and [3,k] its timestamp, rows staying in order;
this array is what `sample_subgraph` returns when the store answers with these rows. -/
theorem c9_materialize_entries (rows : List Row)
    (h : ∀ r ∈ rows, ∃ a b c d rest,
      r.values = Value.int a :: Value.int b :: Value.int c :: Value.int d :: rest) :
    ∃ t, materialize rows = .ok t ∧ t.dim0 = 4 ∧ t.dim1 = rows.length ∧
      t.data.length = 4 * rows.length ∧
      (∀ k a b c d rest,
        rows[k]? = some ⟨Value.int a :: Value.int b :: Value.int c :: Value.int d :: rest⟩ →
        t.entry 0 k = some a ∧ t.entry 1 k = some b ∧
        t.entry 2 k = some c ∧ t.entry 3 k = some d) ∧
      (∀ (nebula_execute : String → Except Err (List Row)) (space_name : String)
          (start_nodes : List Int) (params : List LayerParam),
        nebula_execute (get_nebula_query space_name start_nodes params) = .ok rows →
        sample_subgraph nebula_execute space_name start_nodes params = .ok t) := by
  obtain ⟨out, ho, hlen, _, hent⟩ :=
    edgeLoop_filled rows.length rows 0 (List.replicate (4 * rows.length) 0)
      (List.length_replicate _ _) (by omega) h
  have hm : materialize rows = .ok ⟨4, rows.length, out⟩ := by
    simp only [materialize, ho]
  refine ⟨⟨4, rows.length, out⟩, hm, rfl, rfl, hlen, ?_, ?_⟩
  · intro k a b c d rest hk
    have hlt : k < rows.length := by
      by_contra hge
      rw [List.getElem?_eq_none (by omega)] at hk
      exact Option.noConfusion hk
    have := hent k a b c d rest hk
    simp only [Nat.zero_add] at this
    simp only [LongTensor2.entry, hlt, and_true]
    simpa using this
  · intro nebula_execute space_name start_nodes params he
    simp only [sample_subgraph, he, hm]

/-- Witness of C9: two rows of integer cells give the array with the columns (1, 2, 0, 10)
and (2, 3, 1, 20). -/
theorem c9_materialize_entries_witness :
    ∃ t, materialize [⟨[.int 1, .int 2, .int 0, .int 10]⟩, ⟨[.int 2, .int 3, .int 1, .int 20]⟩]
        = .ok t ∧ t.dim0 = 4 ∧ t.dim1 = 2 ∧
      t.entry 0 1 = some 2 ∧ t.entry 1 1 = some 3 ∧ t.entry 2 1 = some 1 ∧
      t.entry 3 1 = some 20 ∧
      sample_subgraph
        (fun _ => .ok [⟨[.int 1, .int 2, .int 0, .int 10]⟩, ⟨[.int 2, .int 3, .int 1, .int 20]⟩])
        "social" [1, 2] [⟨"follow", -1, (-1, -1), 0⟩, ⟨"follow", -1, (-1, -1), 0⟩] = .ok t := by
  obtain ⟨t, hm, h0, h1, _, hent, hs⟩ := c9_materialize_entries
    [⟨[.int 1, .int 2, .int 0, .int 10]⟩, ⟨[.int 2, .int 3, .int 1, .int 20]⟩]
    (by
      intro r hr
      rcases List.mem_cons.mp hr with rfl | hr
      · exact ⟨1, 2, 0, 10, [], rfl⟩
      · rcases List.mem_cons.mp hr with rfl | hr
        · exact ⟨2, 3, 1, 20, [], rfl⟩
        · simp at hr)
  obtain ⟨e0, e1, e2, e3⟩ := hent 1 2 3 1 20 [] rfl
  exact ⟨t, hm, h0, h1, e0, e1, e2, e3, hs _ "social" [1, 2] _ rfl⟩

/-- C10: on result rows of four cells whose distance cells are integers, the materializing
part of `sample_subgraph` fails if and only if some row has a src, dst or timestamp cell
that is not an integer; the failure is the check error, raised in the loop pass for the
first such row after the passes for the rows before it, and on failure the result is the
error alone: no array, filled or partly filled, is returned. -/
theorem c10_materialize_failure (rows : List Row)
    (h : ∀ r ∈ rows, 4 ≤ r.values.length ∧ r.isIntAt 2 = true) :
    ((∃ e, materialize rows = .error e) ↔ ∃ r ∈ rows, r.keysAreInt = false) ∧
    (∀ e, materialize rows = .error e → e = .check "internel error: 1") ∧
    (∀ pre bad post, rows = pre ++ bad :: post → (∀ r ∈ pre, r.keysAreInt = true) →
      bad.keysAreInt = false →
      ∃ ptr, edgeLoop rows.length (List.replicate (4 * rows.length) 0) 0 pre = .ok ptr ∧
        edgeRowBody rows.length ptr pre.length bad = .error (.check "internel error: 1") ∧
        materialize rows = .error (.check "internel error: 1")) ∧
    (∀ (nebula_execute : String → Except Err (List Row)) (space_name : String)
        (start_nodes : List Int) (params : List LayerParam),
      nebula_execute (get_nebula_query space_name start_nodes params) = .ok rows →
      (∃ r ∈ rows, r.keysAreInt = false) →
      sample_subgraph nebula_execute space_name start_nodes params =
        .error (.check "internel error: 1")) := by
  have hfirst : ∀ pre bad post, rows = pre ++ bad :: post →
      (∀ r ∈ pre, r.keysAreInt = true) → bad.keysAreInt = false →
      ∃ ptr, edgeLoop rows.length (List.replicate (4 * rows.length) 0) 0 pre = .ok ptr ∧
        edgeRowBody rows.length ptr pre.length bad = .error (.check "internel error: 1") ∧
        materialize rows = .error (.check "internel error: 1") := by
    intro pre bad post he hpre hbad
    have hmem : ∀ r ∈ pre, r ∈ rows := fun r hr => by
      rw [he]
      exact List.mem_append_left _ hr
    have hbmem : bad ∈ rows := by
      rw [he]
      exact List.mem_append_right _ (List.mem_cons_self _ _)
    obtain ⟨out, ho, hb, hall⟩ := edgeLoop_first_bad rows.length pre bad post
      (fun r hr => ⟨(h r (hmem r hr)).1, (h r (hmem r hr)).2, hpre r hr⟩)
      (h bad hbmem).1 hbad (List.replicate (4 * rows.length) 0)
    refine ⟨out, ho, hb, ?_⟩
    rw [← he] at hall
    simp only [materialize, hall]
  have hbadfail : (∃ r ∈ rows, r.keysAreInt = false) →
      materialize rows = .error (.check "internel error: 1") := by
    intro hex
    obtain ⟨pre, bad, post, he, hpre, hbad⟩ := split_at_first_bad rows hex
    obtain ⟨_, _, _, hm⟩ := hfirst pre bad post he hpre hbad
    exact hm
  refine ⟨⟨?_, fun hex => ⟨_, hbadfail hex⟩⟩, ?_, hfirst, ?_⟩
  · rintro ⟨e, he⟩
    by_contra hno
    have hgood : ∀ r ∈ rows, ∃ a b c d rest,
        r.values = Value.int a :: Value.int b :: Value.int c :: Value.int d :: rest := by
      intro r hr
      have hk : r.keysAreInt = true := by
        cases hk : r.keysAreInt with
        | true => rfl
        | false => exact absurd ⟨r, hr, hk⟩ hno
      exact row_int_cells r (h r hr).1 (h r hr).2 hk
    obtain ⟨out, ho⟩ := edgeLoop_ok rows.length rows hgood 0
      (List.replicate (4 * rows.length) 0)
    simp only [materialize, ho] at he
    exact Except.noConfusion he
  · intro e he
    cases hl : edgeLoop rows.length (List.replicate (4 * rows.length) 0) 0 rows with
    | error e2 =>
      simp only [materialize, hl] at he
      rw [← Except.error.inj he]
      exact edgeLoop_error rows.length rows h _ _ e2 hl
    | ok out =>
      simp only [materialize, hl] at he
      exact Except.noConfusion he
  · intro nebula_execute space_name start_nodes params he hex
    simp only [sample_subgraph, he]
    exact hbadfail hex

/-- Witness of C10: the second of three rows has a floating-point dst cell; the loop passes
the first row and fails at the second, whatever follows, and `sample_subgraph` fails. -/
theorem c10_materialize_failure_witness :
    materialize [⟨[.int 1, .int 2, .int 0, .int 10]⟩, ⟨[.int 2, .float 3, .int 1, .int 20]⟩,
        ⟨[.string "x", .int 3, .int 1, .int 20]⟩] = .error (.check "internel error: 1") ∧
    sample_subgraph
        (fun _ => .ok [⟨[.int 1, .int 2, .int 0, .int 10]⟩, ⟨[.int 2, .float 3, .int 1, .int 20]⟩,
          ⟨[.string "x", .int 3, .int 1, .int 20]⟩])
        "social" [1, 2] [⟨"follow", -1, (-1, -1), 0⟩] = .error (.check "internel error: 1") := by
  have hc := c10_materialize_failure
    [⟨[.int 1, .int 2, .int 0, .int 10]⟩, ⟨[.int 2, .float 3, .int 1, .int 20]⟩,
      ⟨[.string "x", .int 3, .int 1, .int 20]⟩]
    (by
      intro r hr
      rcases List.mem_cons.mp hr with rfl | hr
      · exact ⟨by decide, rfl⟩
      · rcases List.mem_cons.mp hr with rfl | hr
        · exact ⟨by decide, rfl⟩
        · rcases List.mem_cons.mp hr with rfl | hr
          · exact ⟨by decide, rfl⟩
          · simp at hr)
  obtain ⟨_, _, _, hm⟩ := hc.2.2.1
    [⟨[.int 1, .int 2, .int 0, .int 10]⟩] ⟨[.int 2, .float 3, .int 1, .int 20]⟩
    [⟨[.string "x", .int 3, .int 1, .int 20]⟩] rfl
    (by
      intro r hr
      rcases List.mem_cons.mp hr with rfl | hr
      · rfl
      · simp at hr)
    rfl
  exact ⟨hm, hc.2.2.2 _ "social" [1, 2] [⟨"follow", -1, (-1, -1), 0⟩] rfl
    ⟨⟨[.int 2, .float 3, .int 1, .int 20]⟩,
      List.mem_cons_of_mem _ (List.mem_cons_self _ _), rfl⟩⟩

/-- C18: `get_nebula_query` does not check that there are start vertices. For an empty
start-vertex list and a non-empty layer list it returns a query text whose layer-0
statement has an empty source, beginning "$v0 = GO FROM  OVER " + edge_type with two
spaces between FROM and OVER; the later layer statements and the final statement are the
ones of the same request with any start-vertex list. -/
theorem c18_empty_start_unchecked (space : String) (p : LayerParam) (ps : List LayerParam) :
    get_nebula_query space [] (p :: ps) =
        "USE " ++ space ++ "; "
          ++ ("$v0 = GO FROM  OVER " ++ p.edge_type ++ putDirection "" p.direction
                ++ putTimeFilter "" p.time_range ++ yieldDistinct ++ putLimit "" p.limit ++ "; ")
          ++ String.join ((ps.enumFrom 1).map fun kp => layerStmt [] kp.1 kp.2)
          ++ finalStmt (ps.length + 1) ∧
    ∀ start_nodes : List Int,
      get_nebula_query space start_nodes (p :: ps) =
        "USE " ++ space ++ "; " ++ layerStmt start_nodes 0 p
          ++ String.join ((ps.enumFrom 1).map fun kp => layerStmt [] kp.1 kp.2)
          ++ finalStmt (ps.length + 1) := by
  have hall : ∀ start_nodes : List Int,
      get_nebula_query space start_nodes (p :: ps) =
        "USE " ++ space ++ "; " ++ layerStmt start_nodes 0 p
          ++ String.join ((ps.enumFrom 1).map fun kp => layerStmt [] kp.1 kp.2)
          ++ finalStmt (ps.length + 1) := by
    intro start_nodes
    rw [get_nebula_query_eq]
    simp only [List.enum_cons, List.map_cons, List.length_cons]
    rw [join_cons, layerStmts_succ_start start_nodes 0 ps]
    simp only [String.append_assoc]
  refine ⟨?_, hall⟩
  rw [hall [], layerStmt_zero_empty]

/-- C19: for an empty layer list `get_nebula_query` returns exactly "USE " + space + "; ; "
whatever the space and the start vertices: no layer statement and no branch is written,
the start vertices are not written, and the final statement is the bare terminator "; ". -/
theorem c19_empty_layers (space : String) (start_nodes : List Int) :
    get_nebula_query space start_nodes [] = "USE " ++ space ++ "; ; " ∧
    finalStmt 0 = "; " := by
  refine ⟨?_, rfl⟩
  rw [get_nebula_query_eq]
  have h : finalStmt ([] : List LayerParam).length = "; " := rfl
  have h2 : ("; ; " : String) = "; " ++ "; " := rfl
  rw [h, h2]
  simp [String.join, String.append_assoc]

/-- Counterexample to C16 as stated: on a fresh channel, whose flag is off, two consecutive
calls of `debug()` leave the flag on, not as it was; and a call on a channel whose flag is
on leaves it on. -/
theorem c16_debug_does_not_toggle :
    (QueryGraphChannel.init ["127.0.0.1:9669"] 4).verbose = false ∧
    (QueryGraphChannel.init ["127.0.0.1:9669"] 4).debug.debug.verbose = true ∧
    (QueryGraphChannel.mk ⟨["127.0.0.1:9669"], 4⟩ true).debug.verbose = true :=
  ⟨rfl, rfl, rfl⟩

/-- C16, amended: `debug()` switches verbose logging on. Each call sets the verbose flag to
true (off becomes on, on stays on), so a second call changes nothing; `debug()` changes no
other state, and the statements issued and the arrays or error produced by
`sample_subgraph` and `gather_attributes` are the same whether the flag is on or off. -/
theorem c16_debug_switches_on (c : QueryGraphChannel)
    (nebula_execute : String → Except Err (List Row)) (space_name : String)
    (start_nodes : List Int) (params : List LayerParam) (attrs : List String) :
    c.debug.verbose = true ∧ c.debug.pool = c.pool ∧ c.debug.debug = c.debug ∧
    (QueryGraphChannel.mk c.pool true).sample_subgraph nebula_execute space_name
        start_nodes params
      = ([get_nebula_query space_name start_nodes params],
          sample_subgraph nebula_execute space_name start_nodes params) ∧
    (QueryGraphChannel.mk c.pool false).sample_subgraph nebula_execute space_name
        start_nodes params
      = ([], sample_subgraph nebula_execute space_name start_nodes params) ∧
    ((QueryGraphChannel.mk c.pool true).gather_attributes nebula_execute space_name
        start_nodes attrs).issued
      = ((QueryGraphChannel.mk c.pool false).gather_attributes nebula_execute space_name
          start_nodes attrs).issued ∧
    ((QueryGraphChannel.mk c.pool true).gather_attributes nebula_execute space_name
        start_nodes attrs).result
      = ((QueryGraphChannel.mk c.pool false).gather_attributes nebula_execute space_name
          start_nodes attrs).result := by
  have hg := gatherWindowLoop_verbose nebula_execute space_name start_nodes attrs
    start_nodes.length attrs.length start_nodes.length 0 [] [] []
    ⟨0, List.replicate start_nodes.length 0,
      List.replicate (start_nodes.length * attrs.length) F32.zero⟩
  refine ⟨rfl, rfl, rfl, ?_, ?_, ?_, ?_⟩
  · simp only [QueryGraphChannel.sample_subgraph, sample_subgraph, if_true]
    cases nebula_execute (get_nebula_query space_name start_nodes params) <;> rfl
  · simp only [QueryGraphChannel.sample_subgraph, sample_subgraph, Bool.false_eq_true, if_false]
    cases nebula_execute (get_nebula_query space_name start_nodes params) <;> rfl
  · simp only [QueryGraphChannel.gather_attributes]
    rw [hg.2]
    split <;> exact hg.1
  · simp only [QueryGraphChannel.gather_attributes]
    rw [hg.2]
    split <;> rfl

/-- C11: for every space, every non-empty window of vertex ids and every list of attribute
names, `get_nebula_gather` returns "USE " + space + "; FETCH PROP ON * " + L
+ " YIELD id(vertex) as nid" + A + "; ", where L is the decimal ids of the window with the
later duplicates removed, in order of first occurrence, joined by single commas, each
distinct id of the window being listed exactly once, and A is the attribute part. -/
theorem c11_gather_query (space : String) (window : List Int) (attrs : List String)
    (_hw : window ≠ []) :
    get_nebula_gather space window attrs =
        "USE " ++ space ++ "; FETCH PROP ON * "
          ++ String.intercalate "," ((spec_dedup window).map toString)
          ++ " YIELD id(vertex) as nid" ++ spec_attrList attrs ++ "; " ∧
    (spec_dedup window).Nodup ∧ (∀ u, u ∈ spec_dedup window ↔ u ∈ window) ∧
    (spec_dedup window).Sublist window :=
  ⟨get_nebula_gather_eq_spec space window attrs, nodup_spec_dedup window,
    mem_spec_dedup window, spec_dedup_sublist window⟩

/-- Witness of C11: the window 5, 5, 6 with the attribute "age" lists the ids "5,6". -/
theorem c11_gather_query_witness :
    spec_dedup [5, 5, 6] = [5, 6] ∧
    get_nebula_gather "social" [5, 5, 6] ["age"] =
      "USE social; FETCH PROP ON * 5,6 YIELD id(vertex) as nid, properties(vertex).age as `age`; " :=
  ⟨by decide,
    (c11_gather_query "social" [5, 5, 6] ["age"] (List.cons_ne_nil _ _)).1.trans (by rfl)⟩

/-- C13: when the store answers every window with rows of at least F+1 cells whose id cell
is an integer and whose F attribute cells are numeric, K rows in all with K at most N,
`gather_attributes` returns an index of length K and an attribute array of shape [K, F]:
index[j] is the id cell of the j-th returned row and attrs[j][i] the cast of its cell
i+1, the rows being taken window after window in the order the store returned them;
nothing of the N-row buffers beyond row K-1 is returned. -/
theorem c13_gather_arrays (c : QueryGraphChannel)
    (nebula_execute : String → Except Err (List Row)) (space_name : String)
    (start_nodes : List Int) (attrs : List String) (resps : List (List Row))
    (hexec : List.Forall₂
      (fun w rs => nebula_execute (get_nebula_gather space_name w attrs) = .ok rs)
      (spec_windows start_nodes) resps)
    (htyped : ∀ r ∈ resps.flatten,
      attrs.length + 1 ≤ r.values.length ∧ r.typesOk attrs.length = true)
    (hcap : resps.flatten.length ≤ start_nodes.length) :
    ∃ arrays : AttributeArrays,
      (c.gather_attributes nebula_execute space_name start_nodes attrs).result = .ok arrays ∧
      arrays.node_index = resps.flatten.map Row.nid ∧
      arrays.node_index.length = resps.flatten.length ∧
      arrays.node_attrs.dim0 = resps.flatten.length ∧
      arrays.node_attrs.dim1 = attrs.length ∧
      arrays.node_attrs.data.length = resps.flatten.length * attrs.length ∧
      (∀ j r, resps.flatten[j]? = some r →
        r.values[0]? = some (Value.int r.nid) ∧ arrays.node_index[j]? = some r.nid ∧
        ∀ i x, i < attrs.length → r.values[i + 1]? = some x →
          arrays.node_attrs.entry j i = some (F32.ofValue x)) := by
  have hshape : ∀ r ∈ resps.flatten, attrs.length + 1 ≤ r.values.length :=
    fun r hr => (htyped r hr).1
  refine ⟨_, gather_attributes_ok c nebula_execute space_name start_nodes attrs resps hexec
    htyped hcap, rfl, List.length_map _ _, rfl, rfl,
    flatCells_length attrs.length resps.flatten hshape, ?_⟩
  intro j r hj
  have hmem : r ∈ resps.flatten := List.getElem?_mem hj
  have hid : r.isIntAt 0 = true := by
    have := (htyped r hmem).2
    simp only [Row.typesOk, Bool.and_eq_true] at this
    exact this.1
  have hjlt : j < resps.flatten.length := (List.getElem?_eq_some.mp hj).1
  refine ⟨row_nid_cell r hid, by rw [List.getElem?_map, hj]; rfl, ?_⟩
  intro i x hi hx
  simp only [FloatTensor2.entry, hjlt, hi, and_self, if_true]
  rw [flatCells_entry attrs.length resps.flatten hshape j i r hi hj, hx]
  rfl

/-- Witness of C13: the start vertices 5, 5, 6 with the attribute "age" against a store
that returns one row per requested id in request order: the index is 5, 6 and the
attribute array has the shape [2, 1]. -/
theorem c13_gather_arrays_witness :
    ∃ arrays : AttributeArrays,
      ((QueryGraphChannel.init [] 1).gather_attributes
        (fun _ => .ok [⟨[.int 5, .float 7]⟩, ⟨[.int 6, .int 30]⟩])
        "social" [5, 5, 6] ["age"]).result = .ok arrays ∧
      arrays.node_index = [5, 6] ∧ arrays.node_attrs.dim0 = 2 ∧ arrays.node_attrs.dim1 = 1 ∧
      arrays.node_attrs.entry 1 0 = some (F32.ofValue (.int 30)) := by
  obtain ⟨arrays, hres, hidx, _, hd0, hd1, _, hent⟩ :=
    c13_gather_arrays (QueryGraphChannel.init [] 1)
      (fun _ => .ok [⟨[.int 5, .float 7]⟩, ⟨[.int 6, .int 30]⟩])
      "social" [5, 5, 6] ["age"] [[⟨[.int 5, .float 7]⟩, ⟨[.int 6, .int 30]⟩]]
      (by
        rw [spec_windows_single [5, 5, 6] (by decide) (by decide)]
        exact .cons rfl .nil)
      (by
        intro r hr
        simp only [List.flatten_cons, List.flatten_nil, List.append_nil, List.mem_cons,
          List.mem_singleton, List.not_mem_nil, or_false] at hr
        rcases hr with rfl | rfl
        · exact ⟨by decide, rfl⟩
        · exact ⟨by decide, rfl⟩)
      (by decide)
  exact ⟨arrays, hres, hidx, hd0, hd1,
    (hent 1 ⟨[.int 6, .int 30]⟩ rfl).2.2 0 (.int 30) (by decide) rfl⟩

/-- Counterexample to C12 as stated: for 513 copies of one id there are
ceil(513/512) = 2 windows, yet against a store that rejects every query
`gather_attributes` issues one query only, the first window's, and aborts. -/
theorem c12_rejecting_store_gets_one_query :
    ((List.replicate 513 (7 : Int)).length + 511) / 512 = 2 ∧
    ((QueryGraphChannel.init [] 1).gather_attributes
        (fun _ => .error (.check "SemanticError")) "social"
        (List.replicate 513 7) ["age"]).issued =
      ["USE social; FETCH PROP ON * 7 YIELD id(vertex) as nid, properties(vertex).age as `age`; "] := by
  refine ⟨by rw [List.length_replicate], ?_⟩
  have h := (gather_attributes_stop (QueryGraphChannel.init [] 1)
    (fun _ => .error (.check "SemanticError")) "social" (List.replicate 513 7) ["age"]
    [] [] (List.replicate 512 7) [List.replicate 1 7] (spec_windows_513 7) .nil
    (fun r hr => by simp at hr)).1 (.check "SemanticError") rfl (Nat.zero_le _)
  rw [h.1]
  simp only [List.nil_append, List.map_cons, List.map_nil, get_nebula_gather_eq_spec,
    spec_gather]
  rw [spec_dedup_replicate 511 7]
  rfl

/-- C12, amended: for a start-vertex sequence of length N the windows of
`gather_attributes` are ceil(N/512) in number (none when N = 0), window j being the slice
from 512*j to min(512*(j+1), N), so the windows in order make up the input; the query of a
window lists the distinct ids of that window alone, so an id of two windows is listed in
both queries. The queries are issued in window order: all ceil(N/512) of them when the
store answers every query with well-typed rows, at most N in all, and, when a window is the
first whose query the store rejects or whose rows fail a type check, the queries of the
windows up to that one and no more, the call then failing. -/
theorem c12_gather_windows (c : QueryGraphChannel)
    (nebula_execute : String → Except Err (List Row)) (space_name : String)
    (start_nodes : List Int) (attrs : List String) :
    (spec_windows start_nodes).length = (start_nodes.length + 511) / 512 ∧
    (∀ j, j < (start_nodes.length + 511) / 512 →
      (spec_windows start_nodes)[j]? = some ((start_nodes.drop (512 * j)).take 512) ∧
      ((start_nodes.drop (512 * j)).take 512).length
        = min (512 * (j + 1)) start_nodes.length - 512 * j) ∧
    (spec_windows start_nodes).flatten = start_nodes ∧
    (∀ w : List Int,
      get_nebula_gather space_name w attrs = spec_fetch space_name (spec_dedup w) attrs ∧
      (spec_dedup w).Nodup ∧ ∀ u, u ∈ spec_dedup w ↔ u ∈ w) ∧
    (∀ resps : List (List Row),
      List.Forall₂
        (fun w rs => nebula_execute (get_nebula_gather space_name w attrs) = .ok rs)
        (spec_windows start_nodes) resps →
      (∀ r ∈ resps.flatten,
        attrs.length + 1 ≤ r.values.length ∧ r.typesOk attrs.length = true) →
      resps.flatten.length ≤ start_nodes.length →
      (c.gather_attributes nebula_execute space_name start_nodes attrs).issued =
        (spec_windows start_nodes).map (fun w => get_nebula_gather space_name w attrs)) ∧
    (∀ (before : List (List Int)) (pre : List (List Row)) (w : List Int)
        (after : List (List Int)),
      spec_windows start_nodes = before ++ w :: after →
      List.Forall₂
        (fun w rs => nebula_execute (get_nebula_gather space_name w attrs) = .ok rs)
        before pre →
      (∀ r ∈ pre.flatten,
        attrs.length + 1 ≤ r.values.length ∧ r.typesOk attrs.length = true) →
      ((∃ e, nebula_execute (get_nebula_gather space_name w attrs) = .error e) ∧
          pre.flatten.length ≤ start_nodes.length) ∨
        (∃ rs, nebula_execute (get_nebula_gather space_name w attrs) = .ok rs ∧
          (∀ r ∈ rs, attrs.length + 1 ≤ r.values.length) ∧
          pre.flatten.length + rs.length ≤ start_nodes.length ∧
          ∃ r ∈ rs, r.typesOk attrs.length = false) →
      (c.gather_attributes nebula_execute space_name start_nodes attrs).issued =
          (before ++ [w]).map (fun w => get_nebula_gather space_name w attrs) ∧
        ∃ e, (c.gather_attributes nebula_execute space_name start_nodes attrs).result
          = .error e) ∧
    (start_nodes = [] →
      (c.gather_attributes nebula_execute space_name start_nodes attrs).issued = []) := by
  have hall : ∀ resps : List (List Row),
      List.Forall₂
        (fun w rs => nebula_execute (get_nebula_gather space_name w attrs) = .ok rs)
        (spec_windows start_nodes) resps →
      (∀ r ∈ resps.flatten,
        attrs.length + 1 ≤ r.values.length ∧ r.typesOk attrs.length = true) →
      resps.flatten.length ≤ start_nodes.length →
      (c.gather_attributes nebula_execute space_name start_nodes attrs).issued =
        (spec_windows start_nodes).map (fun w => get_nebula_gather space_name w attrs) := by
    intro resps hexec htyped hcap
    have hok := gather_attributes_ok c nebula_execute space_name start_nodes attrs resps
      hexec htyped hcap
    obtain ⟨st, hst⟩ := gather_attributes_loop_ok c nebula_execute space_name start_nodes
      attrs _ hok
    rw [gather_attributes_issued,
      gatherWindowLoop_issued c.verbose nebula_execute space_name start_nodes attrs
        start_nodes.length attrs.length start_nodes.length 0 [] [] _ st (by omega) hst,
      loopWindows_eq_spec, List.nil_append]
  refine ⟨spec_windows_length start_nodes,
    fun j hj => ⟨spec_windows_get start_nodes j hj, window_length start_nodes j⟩,
    spec_windows_flatten start_nodes,
    fun w => ⟨get_nebula_gather_eq_spec space_name w attrs, nodup_spec_dedup w,
      mem_spec_dedup w⟩,
    hall, ?_, ?_⟩
  · intro before pre w after hw hpre htyped hfail
    obtain ⟨hE, hR⟩ := gather_attributes_stop c nebula_execute space_name start_nodes attrs
      before pre w after hw hpre htyped
    rcases hfail with ⟨⟨e, he⟩, hcap⟩ | ⟨rs, hrs, hshape, hcap, hbad⟩
    · exact ⟨(hE e he hcap).1, e, (hE e he hcap).2⟩
    · obtain ⟨hi, hr⟩ := hR rs hrs hshape hcap hbad
      rcases hr with hr | hr
      · exact ⟨hi, _, hr⟩
      · exact ⟨hi, _, hr⟩
  · intro hnil
    have h0 := hall [] (by rw [hnil, spec_windows_nil]; exact .nil)
      (fun r hr => by simp at hr) (Nat.zero_le _)
    rw [h0, hnil, spec_windows_nil]
    rfl

/-- Witness of C12 amended: 513 copies of the id 7. Against a store that answers every
query with no rows both windows are queried, each query listing the id once; against a
store that answers the first window with a row whose id cell is a string the first
window's query is the only one. -/
theorem c12_gather_windows_witness :
    ((QueryGraphChannel.init [] 1).gather_attributes (fun _ => .ok []) "social"
        (List.replicate 513 7) ["age"]).issued =
      ["USE social; FETCH PROP ON * 7 YIELD id(vertex) as nid, properties(vertex).age as `age`; ",
        "USE social; FETCH PROP ON * 7 YIELD id(vertex) as nid, properties(vertex).age as `age`; "] ∧
    ((QueryGraphChannel.init [] 1).gather_attributes
        (fun _ => .ok [⟨[.string "seven", .int 30]⟩]) "social"
        (List.replicate 513 7) ["age"]).issued =
      ["USE social; FETCH PROP ON * 7 YIELD id(vertex) as nid, properties(vertex).age as `age`; "] := by
  have hexec : List.Forall₂
      (fun w rs => (fun _ => Except.ok [] : String → Except Err (List Row))
        (get_nebula_gather "social" w ["age"]) = .ok rs)
      (spec_windows (List.replicate 513 7)) [[], []] := by
    rw [spec_windows_513]
    exact .cons rfl (.cons rfl .nil)
  have h1 := (c12_gather_windows (QueryGraphChannel.init [] 1) (fun _ => .ok []) "social"
    (List.replicate 513 7) ["age"]).2.2.2.2.1 [[], []] hexec (fun r hr => by simp at hr)
    (Nat.zero_le _)
  have h2 := ((c12_gather_windows (QueryGraphChannel.init [] 1)
    (fun _ => .ok [⟨[.string "seven", .int 30]⟩]) "social"
    (List.replicate 513 7) ["age"]).2.2.2.2.2.1 [] [] (List.replicate 512 7)
    [List.replicate 1 7] (spec_windows_513 7) .nil (fun r hr => by simp at hr)
    (Or.inr ⟨[⟨[.string "seven", .int 30]⟩], rfl,
      fun r hr => by rw [List.mem_singleton.mp hr]; decide,
      by rw [List.length_replicate]; decide,
      ⟨[.string "seven", .int 30]⟩, List.mem_singleton.mpr rfl, rfl⟩)).1
  refine ⟨?_, ?_⟩
  · rw [h1, spec_windows_513]
    simp only [List.map_cons, List.map_nil, get_nebula_gather_eq_spec, spec_gather]
    rw [spec_dedup_replicate 511 7, spec_dedup_replicate 0 7]
    rfl
  · rw [h2]
    simp only [List.nil_append, List.map_cons, List.map_nil, get_nebula_gather_eq_spec,
      spec_gather]
    rw [spec_dedup_replicate 511 7]
    rfl

/-- Counterexample to C15 as stated: against a store that rejects the query
`gather_attributes` fails with the store's error although the store returns no row at
all, so no returned row has an ill-typed cell. -/
theorem c15_rejected_query_fails_without_rows :
    ((QueryGraphChannel.init [] 1).gather_attributes
        (fun _ => .error (.check "SemanticError")) "social" [5] ["age"]).result
      = .error (.check "SemanticError") ∧
    ∀ stmt : String,
      returnedRows (fun _ => .error (.check "SemanticError")) stmt = [] :=
  ⟨by rfl, fun _ => rfl⟩

/-- C15, amended: for every input and every store whose returned rows have at least F+1
cells and number at most N in all, `gather_attributes` fails, returning no arrays, if and
only if the store rejects the query of some window or returns for some window a row whose
id cell is not an integer or one of whose F attribute cells is not numeric, integer and
floating-point cells both being numeric. The failure is the store's error or one of the
two check errors; without such a window every attribute entry is the cast of its cell: no
default value stands in for a cell. -/
theorem c15_gather_failure (c : QueryGraphChannel)
    (nebula_execute : String → Except Err (List Row)) (space_name : String)
    (start_nodes : List Int) (attrs : List String)
    (hshape : ∀ w ∈ spec_windows start_nodes,
      ∀ r ∈ returnedRows nebula_execute (get_nebula_gather space_name w attrs),
        attrs.length + 1 ≤ r.values.length)
    (hcap : ((spec_windows start_nodes).flatMap fun w =>
        returnedRows nebula_execute (get_nebula_gather space_name w attrs)).length
      ≤ start_nodes.length) :
    ((∃ e, (c.gather_attributes nebula_execute space_name start_nodes attrs).result
        = .error e) ↔
      (∃ w ∈ spec_windows start_nodes, ∃ e,
        nebula_execute (get_nebula_gather space_name w attrs) = .error e) ∨
      (∃ w ∈ spec_windows start_nodes,
        ∃ r ∈ returnedRows nebula_execute (get_nebula_gather space_name w attrs),
          r.typesOk attrs.length = false)) ∧
    (∀ e, (c.gather_attributes nebula_execute space_name start_nodes attrs).result
        = .error e →
      (∃ w ∈ spec_windows start_nodes,
        nebula_execute (get_nebula_gather space_name w attrs) = .error e) ∨
      e = .check "internel error: 1" ∨ e = .check "internel error: 2") ∧
    ((∀ w ∈ spec_windows start_nodes,
        (∃ rs, nebula_execute (get_nebula_gather space_name w attrs) = .ok rs) ∧
        ∀ r ∈ returnedRows nebula_execute (get_nebula_gather space_name w attrs),
          r.typesOk attrs.length = true) →
      (c.gather_attributes nebula_execute space_name start_nodes attrs).result =
        .ok ⟨((spec_windows start_nodes).flatMap fun w =>
              returnedRows nebula_execute (get_nebula_gather space_name w attrs)).map Row.nid,
          ⟨((spec_windows start_nodes).flatMap fun w =>
              returnedRows nebula_execute (get_nebula_gather space_name w attrs)).length,
            attrs.length,
            ((spec_windows start_nodes).flatMap fun w =>
              returnedRows nebula_execute (get_nebula_gather space_name w attrs)).flatMap
              (fun r => (r.attrCells attrs.length).map F32.ofValue)⟩⟩) ∧
    (∀ i : Int, (Value.int i).isNumeric = true) ∧
    (∀ bits : Nat, (Value.float bits).isNumeric = true) ∧
    (∀ s : String, (Value.string s).isNumeric = false) := by
  have hgood : (∀ w ∈ spec_windows start_nodes,
        (∃ rs, nebula_execute (get_nebula_gather space_name w attrs) = .ok rs) ∧
        ∀ r ∈ returnedRows nebula_execute (get_nebula_gather space_name w attrs),
          r.typesOk attrs.length = true) →
      (c.gather_attributes nebula_execute space_name start_nodes attrs).result =
        .ok ⟨((spec_windows start_nodes).flatMap fun w =>
              returnedRows nebula_execute (get_nebula_gather space_name w attrs)).map Row.nid,
          ⟨((spec_windows start_nodes).flatMap fun w =>
              returnedRows nebula_execute (get_nebula_gather space_name w attrs)).length,
            attrs.length,
            ((spec_windows start_nodes).flatMap fun w =>
              returnedRows nebula_execute (get_nebula_gather space_name w attrs)).flatMap
              (fun r => (r.attrCells attrs.length).map F32.ofValue)⟩⟩ := by
    intro hall
    have hexec := forall2_returnedRows nebula_execute space_name attrs
      (spec_windows start_nodes) (fun w hw => (hall w hw).1)
    have hok := gather_attributes_ok c nebula_execute space_name start_nodes attrs _ hexec
      (by
        intro r hr
        rw [flatten_map_returnedRows, List.mem_flatMap] at hr
        obtain ⟨w, hw, hrw⟩ := hr
        exact ⟨hshape w hw r hrw, (hall w hw).2 r hrw⟩)
      (by rw [flatten_map_returnedRows]; exact hcap)
    rw [flatten_map_returnedRows] at hok
    exact hok
  have hsome : ∀ e, (c.gather_attributes nebula_execute space_name start_nodes attrs).result
        = .error e →
      ∃ w ∈ spec_windows start_nodes,
        (∃ e, nebula_execute (get_nebula_gather space_name w attrs) = .error e) ∨
        (∃ r ∈ returnedRows nebula_execute (get_nebula_gather space_name w attrs),
          r.typesOk attrs.length = false) := by
    intro e he
    by_contra hno
    have hall : ∀ w ∈ spec_windows start_nodes,
        (∃ rs, nebula_execute (get_nebula_gather space_name w attrs) = .ok rs) ∧
        ∀ r ∈ returnedRows nebula_execute (get_nebula_gather space_name w attrs),
          r.typesOk attrs.length = true := by
      intro w hw
      refine ⟨?_, ?_⟩
      · cases hx : nebula_execute (get_nebula_gather space_name w attrs) with
        | error e2 => exact absurd ⟨w, hw, Or.inl ⟨e2, hx⟩⟩ hno
        | ok rs => exact ⟨rs, rfl⟩
      · intro r hr
        cases hk : r.typesOk attrs.length with
        | true => rfl
        | false => exact absurd ⟨w, hw, Or.inr ⟨r, hr, hk⟩⟩ hno
    rw [hgood hall] at he
    exact Except.noConfusion he
  have hfails := gather_attributes_fails c nebula_execute space_name start_nodes attrs
    hshape hcap
  refine ⟨⟨?_, ?_⟩, ?_, hgood, fun _ => rfl, fun _ => rfl, fun _ => rfl⟩
  · rintro ⟨e, he⟩
    obtain ⟨w, hw, h | h⟩ := hsome e he
    · exact Or.inl ⟨w, hw, h⟩
    · exact Or.inr ⟨w, hw, h⟩
  · intro hbad
    have hb : ∃ w ∈ spec_windows start_nodes,
        (∃ e, nebula_execute (get_nebula_gather space_name w attrs) = .error e) ∨
        (∃ r ∈ returnedRows nebula_execute (get_nebula_gather space_name w attrs),
          r.typesOk attrs.length = false) := by
      rcases hbad with ⟨w, hw, h⟩ | ⟨w, hw, h⟩
      · exact ⟨w, hw, Or.inl h⟩
      · exact ⟨w, hw, Or.inr h⟩
    rcases hfails hb with ⟨_, _, e, _, hr⟩ | hr | hr
    · exact ⟨e, hr⟩
    · exact ⟨_, hr⟩
    · exact ⟨_, hr⟩
  · intro e he
    rcases hfails (hsome e he) with ⟨w, hw, e2, hx, hr⟩ | hr | hr
    · rw [hr] at he
      rw [← Except.error.inj he]
      exact Or.inl ⟨w, hw, hx⟩
    · rw [hr] at he
      exact Or.inr (Or.inl (Except.error.inj he).symm)
    · rw [hr] at he
      exact Or.inr (Or.inr (Except.error.inj he).symm)

/-- Witness of C15 amended: a row whose attribute cell is a string makes the call fail;
with an integer attribute cell in its place the call returns, the cell cast to a float
entry. -/
theorem c15_gather_failure_witness :
    (∃ e, ((QueryGraphChannel.init [] 1).gather_attributes
        (fun _ => .ok [⟨[.int 5, .float 7]⟩, ⟨[.int 6, .string "old"]⟩])
        "social" [5, 5, 6] ["age"]).result = .error e) ∧
    ((QueryGraphChannel.init [] 1).gather_attributes
        (fun _ => .ok [⟨[.int 5, .float 7]⟩, ⟨[.int 6, .int 30]⟩])
        "social" [5, 5, 6] ["age"]).result =
      .ok ⟨[5, 6], ⟨2, 1, [F32.ofValue (.float 7), F32.ofValue (.int 30)]⟩⟩ := by
  have hw : spec_windows [5, 5, 6] = [[5, 5, 6]] :=
    spec_windows_single [5, 5, 6] (by decide) (by decide)
  refine ⟨(c15_gather_failure (QueryGraphChannel.init [] 1)
      (fun _ => .ok [⟨[.int 5, .float 7]⟩, ⟨[.int 6, .string "old"]⟩])
      "social" [5, 5, 6] ["age"]
      (by
        intro w _ r hr
        simp only [returnedRows, List.mem_cons, List.mem_singleton, List.not_mem_nil,
          or_false] at hr
        rcases hr with rfl | rfl <;> decide)
      (by rw [hw]; decide)).1.mpr
      (Or.inr ⟨[5, 5, 6], by rw [hw]; exact List.mem_singleton.mpr rfl,
        ⟨[.int 6, .string "old"]⟩, by simp [returnedRows], rfl⟩), ?_⟩
  have h := (c15_gather_failure (QueryGraphChannel.init [] 1)
      (fun _ => .ok [⟨[.int 5, .float 7]⟩, ⟨[.int 6, .int 30]⟩])
      "social" [5, 5, 6] ["age"]
      (by
        intro w _ r hr
        simp only [returnedRows, List.mem_cons, List.mem_singleton, List.not_mem_nil,
          or_false] at hr
        rcases hr with rfl | rfl <;> decide)
      (by rw [hw]; decide)).2.2.1
      (by
        intro w _
        refine ⟨⟨_, rfl⟩, ?_⟩
        intro r hr
        simp only [returnedRows, List.mem_cons, List.mem_singleton, List.not_mem_nil,
          or_false] at hr
        rcases hr with rfl | rfl <;> rfl)
  rw [h, hw]
  rfl

/-- C14, the dedup law: when the store answers every window's query with exactly one
well-typed row per id listed in the text of that query, the count K of rows returned by
`gather_attributes` is the sum over the windows of the number of distinct ids in the
window, and K ≤ N; when the input is a single window, every id of it, repeated or not,
occurs exactly once in the index array. -/
theorem c14_dedup_law (c : QueryGraphChannel)
    (nebula_execute : String → Except Err (List Row)) (space_name : String)
    (start_nodes : List Int) (attrs : List String) (resps : List (List Row))
    (hexec : List.Forall₂
      (fun w rs => nebula_execute (get_nebula_gather space_name w attrs) = .ok rs ∧
        ∀ ids : List Int,
          get_nebula_gather space_name w attrs = spec_fetch space_name ids attrs →
          (rs.map Row.nid).Perm ids)
      (spec_windows start_nodes) resps)
    (htyped : ∀ r ∈ resps.flatten,
      attrs.length + 1 ≤ r.values.length ∧ r.typesOk attrs.length = true) :
    ∃ arrays : AttributeArrays,
      (c.gather_attributes nebula_execute space_name start_nodes attrs).result = .ok arrays ∧
      arrays.node_index.length
        = ((spec_windows start_nodes).map (fun w => w.toFinset.card)).sum ∧
      arrays.node_attrs.dim0 = arrays.node_index.length ∧
      arrays.node_index.length ≤ start_nodes.length ∧
      (start_nodes.length ≤ 512 → ∀ u ∈ start_nodes, arrays.node_index.count u = 1) := by
  have hexec2 : List.Forall₂
      (fun w rs => nebula_execute (get_nebula_gather space_name w attrs) = .ok rs ∧
        (rs.map Row.nid).Perm (spec_dedup w))
      (spec_windows start_nodes) resps :=
    hexec.imp (fun w _ h =>
      ⟨h.1, h.2 (spec_dedup w) (get_nebula_gather_eq_fetch space_name w attrs)⟩)
  have hlen := responses_length nebula_execute space_name attrs (spec_windows start_nodes)
    resps hexec2
  have hle := dedup_sum_le (spec_windows start_nodes)
  rw [spec_windows_flatten] at hle
  have hcard : (spec_windows start_nodes).map (fun w => (spec_dedup w).length)
      = (spec_windows start_nodes).map (fun w => w.toFinset.card) :=
    List.map_congr_left (fun w _ => spec_dedup_card w)
  have hok := gather_attributes_ok c nebula_execute space_name start_nodes attrs resps
    (hexec2.imp (fun _ _ h => h.1)) htyped (by omega)
  refine ⟨_, hok, by rw [List.length_map, hlen, hcard], by rw [List.length_map],
    by rw [List.length_map, hlen]; exact hle, ?_⟩
  intro h512 u hu
  have hpos : 0 < start_nodes.length := List.length_pos_of_mem hu
  rw [spec_windows_single start_nodes hpos h512] at hexec2
  obtain ⟨rs, rest, ⟨_, hperm⟩, hrest, rfl⟩ := List.forall₂_cons_left_iff.mp hexec2
  rw [List.forall₂_nil_left_iff] at hrest
  subst hrest
  simp only [List.flatten_cons, List.flatten_nil, List.append_nil]
  rw [hperm.count_eq u]
  exact List.count_eq_one_of_mem (nodup_spec_dedup start_nodes)
    ((mem_spec_dedup start_nodes u).mpr hu)

/-- Witness of C14: the window 5, 5, 6 against a store that returns the rows of the ids 6
and 5, the ids its query lists: two rows are returned and the id 5 occurs once in the
index. -/
theorem c14_dedup_law_witness :
    ∃ arrays : AttributeArrays,
      ((QueryGraphChannel.init [] 1).gather_attributes
        (fun _ => .ok [⟨[.int 6, .int 30]⟩, ⟨[.int 5, .float 7]⟩])
        "social" [5, 5, 6] ["age"]).result = .ok arrays ∧
      arrays.node_index.length = 2 ∧ arrays.node_index.count 5 = 1 := by
  have hw : spec_windows [5, 5, 6] = [[5, 5, 6]] :=
    spec_windows_single [5, 5, 6] (by decide) (by decide)
  obtain ⟨arrays, hres, hlen, _, _, hcount⟩ :=
    c14_dedup_law (QueryGraphChannel.init [] 1)
      (fun _ => .ok [⟨[.int 6, .int 30]⟩, ⟨[.int 5, .float 7]⟩])
      "social" [5, 5, 6] ["age"] [[⟨[.int 6, .int 30]⟩, ⟨[.int 5, .float 7]⟩]]
      (by
        rw [hw]
        refine .cons ⟨rfl, ?_⟩ .nil
        intro ids hids
        rw [get_nebula_gather_eq_fetch] at hids
        have hd : spec_dedup [5, 5, 6] = ids := spec_fetch_injective _ _ _ _ hids
        rw [← hd]
        decide)
      (by
        intro r hr
        simp only [List.flatten_cons, List.flatten_nil, List.append_nil, List.mem_cons,
          List.mem_singleton, List.not_mem_nil, or_false] at hr
        rcases hr with rfl | rfl
        · exact ⟨by decide, rfl⟩
        · exact ⟨by decide, rfl⟩)
  refine ⟨arrays, hres, ?_, hcount (by decide) 5 (by decide)⟩
  rw [hlen, hw]
  decide

end QueryGraph
